import Mathlib

/-!
Verification development for the layout-matching engine of the AppUsageExtractor
repository.

The embedded code lives in `src/layout_analysis.py` (the primary implementation,
used by `src/processor.py`) and in the alternative implementations
`src/detection/utils.py` and `src/detection/grid_processor.py` (used by
`src/detection/matcher.py` / `src/pipeline/processor.py`).

Modelling conventions:
- Pixel coordinates of detections are integers; derived quantities (centroids,
  projection parameters, distances) are rationals.  The source computes with
  IEEE doubles; every operation embedded here is exact on the rationals the
  pipeline produces, except where a comment says otherwise.
- The source compares Euclidean distances against each other and against
  nonnegative thresholds.  Since x ↦ x * x is strictly monotone on nonnegative
  reals, the embedding tracks squared distances throughout and squares the
  thresholds; every comparison is equivalent to the source's.
- Python float infinities only ever appear as initial values of running
  minima / maxima and in comparisons; they are modelled by `Option ℚ` (`none`
  standing for the infinity) or by small inductive types, never by arithmetic.
- Python dicts preserve insertion order; they are modelled as association
  lists with in-place update (`dict_set`).  Python sets are modelled as lists
  of keys, with only membership ever observed.
- The transcendental parts of the pipeline (the arccos-based turning-angle
  test and the least-squares line fit with its chain search scoring) cannot be
  computed in exact arithmetic; they are abstracted as function parameters,
  and every theorem below is proved for an arbitrary value of those
  parameters.
-/

namespace AppUsage

/-! ### Small generic helpers (Python list / dict / set semantics) -/

/-- First element of a list satisfying a decidable predicate (Python's
`next((x for x in l if p x), None)` and the first-match-then-`break` loops). -/
def findFirst {α : Type} (p : α → Prop) [DecidablePred p] : List α → Option α
  | [] => none
  | a :: as => if p a then some a else findFirst p as

/-- Keep the elements satisfying a decidable predicate, preserving order. -/
def filterP {α : Type} (p : α → Prop) [DecidablePred p] : List α → List α
  | [] => []
  | a :: as => if p a then a :: filterP p as else filterP p as

/-- Python dict lookup `m.get(k)` on an insertion-ordered association list. -/
def dict_get {κ V : Type} [DecidableEq κ] (m : List (κ × V)) (k : κ) : Option V :=
  match m with
  | [] => none
  | p :: rest => if p.1 = k then some p.2 else dict_get rest k

/-- Python dict assignment `m[k] = v`: update in place if the key is present
(keeping its position), otherwise append. -/
def dict_set {κ V : Type} [DecidableEq κ] (m : List (κ × V)) (k : κ) (v : V) :
    List (κ × V) :=
  match m with
  | [] => [(k, v)]
  | p :: rest => if p.1 = k then (k, v) :: rest else p :: dict_set rest k v

/-- Ascending insertion of a rational into a sorted list. -/
def insertRat (a : ℚ) : List ℚ → List ℚ
  | [] => [a]
  | b :: bs => if b ≤ a then b :: insertRat a bs else a :: b :: bs

/-- Sort a list of rationals ascending (the embedding's stand-in for
`np.sort` / `np.argsort` where only the sorted values are consumed). -/
def sortRats : List ℚ → List ℚ
  | [] => []
  | a :: as => insertRat a (sortRats as)

/-- Ascending insertion of an integer into a sorted list. -/
def insertInt (a : ℤ) : List ℤ → List ℤ
  | [] => [a]
  | b :: bs => if b ≤ a then b :: insertInt a bs else a :: b :: bs

/-- Sort a list of integers ascending. -/
def sortInts : List ℤ → List ℤ
  | [] => []
  | a :: as => insertInt a (sortInts as)

/-! ### Geometry primitives -/

/-- A 2D point with rational coordinates. -/
abbrev Pt := ℚ × ℚ

/-- Componentwise sum. -/
def vadd (a b : Pt) : Pt := (a.1 + b.1, a.2 + b.2)

/-- Componentwise difference. -/
def vsub (a b : Pt) : Pt := (a.1 - b.1, a.2 - b.2)

/-- Scalar multiple. -/
def smul (t : ℚ) (a : Pt) : Pt := (t * a.1, t * a.2)

/-- Dot product. -/
def dot (a b : Pt) : ℚ := a.1 * b.1 + a.2 * b.2

/-- Squared Euclidean norm. -/
def normSq (a : Pt) : ℚ := a.1 * a.1 + a.2 * a.2

/-- Integer point to rational point. -/
def ptZ (p : ℤ × ℤ) : Pt := ((p.1 : ℚ), (p.2 : ℚ))

/-- numpy's `np.clip(v, lo, hi)`, i.e. `minimum(hi, maximum(v, lo))`. -/
def npClip (v lo hi : ℚ) : ℚ := min hi (max v lo)

/-- Python's `int(q)`: truncation toward zero. -/
def pyInt (q : ℚ) : ℤ := if 0 ≤ q then ⌊q⌋ else ⌈q⌉

/-- Squared version of `layout_analysis.distance_to_segment`
(layout_analysis.py lines 315-336).  The source returns
`np.linalg.norm(p - nearest)`; the embedding returns the square of that value
(see the conventions above).  The `ab_dot_ab < 1e-9` guard of line 326 is
exact rational arithmetic and is kept verbatim. -/
def distance_to_segment_sq (point a b : Pt) : ℚ :=
  let ab := vsub b a
  let ap := vsub point a
  let ab_dot_ab := dot ab ab
  if ab_dot_ab < 1 / 1000000000 then normSq (vsub point a)
  else
    let t := dot ap ab / ab_dot_ab
    let t_clipped := npClip t 0 1
    let nearest := vadd a (smul t_clipped ab)
    normSq (vsub point nearest)

/-- Squared version of `detection/utils.distance_to_segment`
(detection/utils.py lines 82-94).  The denominator is regularized by `+ 1e-6`,
so the projection parameter differs from the exact one. -/
def utils_distance_to_segment_sq (point a b : Pt) : ℚ :=
  let dx := b.1 - a.1
  let dy := b.2 - a.2
  let t := ((point.1 - a.1) * dx + (point.2 - a.2) * dy) / (dx ^ 2 + dy ^ 2 + 1 / 1000000)
  let t' := max 0 (min 1 t)
  let nearest_x := a.1 + t' * dx
  let nearest_y := a.2 + t' * dy
  (point.1 - nearest_x) ^ 2 + (point.2 - nearest_y) ^ 2

/-! ### Grid detection -/

/-- Group a y-sorted list into rows, starting a new row when the gap between
consecutive values exceeds `gap` (the `np.split(y_sorted, row_breaks)` of
layout_analysis.py lines 24-32). -/
def groupRowsGo (gap : ℤ) (prev : ℤ) (acc : List ℤ) : List ℤ → List (List ℤ)
  | [] => [acc.reverse]
  | y :: ys =>
    if y - prev > gap then acc.reverse :: groupRowsGo gap y [y] ys
    else groupRowsGo gap y (y :: acc) ys

/-- Split a sorted list into gap-delimited groups. -/
def groupRows (gap : ℤ) : List ℤ → List (List ℤ)
  | [] => []
  | y :: ys => groupRowsGo gap y [y] ys

/-- `MAX_ROW_GAP` of layout_analysis.py line 23 (the same constant, 50, is
`MAX_COLUMN_WIDTH` in detection/grid_processor.py line 7). -/
def MAX_ROW_GAP : ℤ := 50

/-- `layout_analysis.detect_grid` (lines 16-39).  The row breaks compare only
consecutive sorted y-coordinates, so the embedding sorts the projected
y-coordinates directly; `np.argsort`'s order on ties cannot change the row or
column counts.  Python's `max(...) if rows else 0` over the nonempty group
list equals the fold below. -/
def detect_grid (icon_centers : List (ℤ × ℤ)) : ℕ × ℕ :=
  if icon_centers.length < 2 then (0, 0)
  else
    let rows := groupRows MAX_ROW_GAP (sortInts (icon_centers.map Prod.snd))
    (rows.length, (rows.map List.length).foldl Nat.max 0)

/-! ### Reference line: orientation priority -/

/-- Orientation tag of a reference or search line. -/
inductive Orientation where
  | vertical
  | horizontal
deriving DecidableEq

/-- A reference line or search line exactly as the source passes it around:
`(orientation, (start_x, start_y), (end_x, end_y))` with integer endpoints. -/
structure RefLine where
  orientation : Orientation
  start : ℤ × ℤ
  stop : ℤ × ℤ
deriving DecidableEq

/-- Gaps between consecutive elements (`np.abs(np.diff(...))`). -/
def consecGaps : List ℚ → List ℚ
  | a :: b :: rest => |b - a| :: consecGaps (b :: rest)
  | _ => []

/-- `compute_avg_spacing` of layout_analysis.py lines 82-91, applied to the
already-projected axis coordinates (the source sorts the points by the axis
and then only reads that axis).  `none` is the source's `float('inf')`. -/
def compute_avg_spacing (vals : List ℚ) : Option ℚ :=
  if vals.length < 2 then none
  else
    let gaps := consecGaps (sortRats vals)
    if gaps.length = 0 then none else some (gaps.sum / (gaps.length : ℚ))

/-- IEEE `<` where `none` stands for `float('inf')`. -/
def infLt : Option ℚ → Option ℚ → Prop
  | some a, some b => a < b
  | some _, none => True
  | none, _ => False

instance : ∀ a b : Option ℚ, Decidable (infLt a b) := fun a b =>
  match a, b with
  | some a, some b => inferInstanceAs (Decidable (a < b))
  | some _, none => isTrue trivial
  | none, some _ => isFalse id
  | none, none => isFalse id

/-- x-coordinates of integer centers, as rationals. -/
def xcoords (cs : List (ℤ × ℤ)) : List ℚ := cs.map fun c => (c.1 : ℚ)

/-- y-coordinates of integer centers, as rationals. -/
def ycoords (cs : List (ℤ × ℤ)) : List ℚ := cs.map fun c => (c.2 : ℚ)

/-- `prioritize_columns = avg_col_spacing < avg_row_spacing` of
layout_analysis.py line 179 (identically line 73 of
detection/grid_processor.py). -/
def prioritize_columns (cs : List (ℤ × ℤ)) : Prop :=
  infLt (compute_avg_spacing (xcoords cs)) (compute_avg_spacing (ycoords cs))

instance : ∀ cs, Decidable (prioritize_columns cs) := fun cs =>
  inferInstanceAs
    (Decidable (infLt (compute_avg_spacing (xcoords cs)) (compute_avg_spacing (ycoords cs))))

/-- `primary_orientation` of layout_analysis.py line 181: the orientation tried
first by the reference-line search. -/
def primary_orientation (cs : List (ℤ × ℤ)) : Orientation :=
  if prioritize_columns cs then .vertical else .horizontal

/-- `secondary_orientation` of layout_analysis.py line 181. -/
def secondary_orientation (cs : List (ℤ × ℤ)) : Orientation :=
  if prioritize_columns cs then .horizontal else .vertical

/-- Lines 182-183 of layout_analysis.py: try the primary orientation, fall
back to the secondary one; the per-orientation chain search is the parameter
`tryO`. -/
def try_orientations (tryO : Orientation → Option (List (ℤ × ℤ)))
    (cs : List (ℤ × ℤ)) : Option (List (ℤ × ℤ)) :=
  match tryO (primary_orientation cs) with
  | some l => some l
  | none => tryO (secondary_orientation cs)

/-- `layout_analysis.find_reference_line`, control skeleton (lines 46-60 and
174-176).  The chain search, scoring and least-squares fit (lines 62-203) use
arccos, square roots and `np.linalg.lstsq`; they are abstracted as the
parameter `core`, and every theorem about this function holds for every
`core`.  The guard of lines 52-54 repeats lines 48-50 verbatim, and lines
174-176 recompute `detect_grid` on the same input; both collapse here. -/
def find_reference_line (core : List (ℤ × ℤ) → Option RefLine)
    (icon_centers : List (ℤ × ℤ)) (min_icons : ℕ) : Option RefLine :=
  if icon_centers.isEmpty ∨ icon_centers.length < min_icons then none
  else
    let rc := detect_grid icon_centers
    if rc.1 = 0 ∨ rc.2 = 0 then none
    else core icon_centers

/-! ### Reference line: greedy chain extension (try_orientation inner loop) -/

/-- Squared distance between integer points (`np.sum((candidate - last)**2)`,
exact). -/
def distSqZ (a b : ℤ × ℤ) : ℤ := (b.1 - a.1) ^ 2 + (b.2 - a.2) ^ 2

/-- Forward constraint of layout_analysis.py lines 134-135: a candidate is
kept only if it lies strictly forward along the primary axis. -/
def forwardOk (orientation : Orientation) (last cand : ℤ × ℤ) : Prop :=
  match orientation with
  | .vertical => last.2 < cand.2
  | .horizontal => last.1 < cand.1

instance : ∀ o last cand, Decidable (forwardOk o last cand) := fun o last cand =>
  match o with
  | .vertical => inferInstanceAs (Decidable (last.2 < cand.2))
  | .horizontal => inferInstanceAs (Decidable (last.1 < cand.1))

/-- The direction vector of the current chain, layout_analysis.py lines
123-128: available once the chain has two points and the difference of the
last two points has norm above 1e-6 (for integer points, `norm > 1e-6` is
exactly `normSq > 1e-12` on the rationals).  The source normalizes the
vector; normalization is delegated to the angle test (next definition). -/
def chain_direction (prev last : ℤ × ℤ) : Option (ℤ × ℤ) :=
  let d := (last.1 - prev.1, last.2 - prev.2)
  if (1 : ℚ) / 1000000000000 < ((distSqZ prev last : ℤ) : ℚ) then some d else none

/-- Turning-angle acceptance of layout_analysis.py lines 139-149.  The
arccos comparison of lines 144-147 (`angle_rad <= radians(max_angle)` on the
normalized direction and candidate vectors) is transcendental; it is the
abstract parameter `angle_test`, applied to the unnormalized vectors (the
normalization of lines 128 and 144 divides by positive magnitudes and does
not change which vector pairs pass a fixed angle bound).  The surrounding
branch structure is the source's: no chain direction yet accepts (line 149),
and a candidate vector of norm ≤ 1e-6 accepts (line 148). -/
def angle_ok (angle_test : ℤ × ℤ → ℤ × ℤ → Bool) (dir_vec : Option (ℤ × ℤ))
    (last cand : ℤ × ℤ) : Prop :=
  match dir_vec with
  | none => True
  | some d =>
    if (1 : ℚ) / 1000000000000 < ((distSqZ last cand : ℤ) : ℚ) then
      angle_test d (cand.1 - last.1, cand.2 - last.2) = true
    else True

instance : ∀ at_ dv last cand, Decidable (angle_ok at_ dv last cand) :=
  fun at_ dv last cand => by
  unfold angle_ok
  match dv with
  | none => exact isTrue trivial
  | some d => infer_instance

/-- All constraints a candidate `(idx, point)` must pass in the candidate
scan of layout_analysis.py lines 131-151: not already used, strictly forward,
squared distance strictly below `max_gap ** 2` (line 121/137; `min_dist_sq`
is initialized to `max_gap ** 2` and never updated, because the scan breaks
at line 153 on the first accepted candidate), and the angle test. -/
def next_point_ok (angle_test : ℤ × ℤ → ℤ × ℤ → Bool) (orientation : Orientation)
    (used : List ℕ) (last : ℤ × ℤ) (dir_vec : Option (ℤ × ℤ)) (max_gap : ℚ)
    (ic : ℕ × (ℤ × ℤ)) : Prop :=
  ic.1 ∉ used ∧ forwardOk orientation last ic.2 ∧
    ((distSqZ last ic.2 : ℤ) : ℚ) < max_gap ^ 2 ∧
    angle_ok angle_test dir_vec last ic.2

instance : ∀ at_ o used last dv g ic,
    Decidable (next_point_ok at_ o used last dv g ic) := fun _ _ _ _ _ _ _ =>
  inferInstanceAs (Decidable (_ ∧ _ ∧ _ ∧ _))

/-- Candidate scan of layout_analysis.py lines 130-153 over the enumerated
sorted centers: skip used indices, skip non-forward candidates, skip
candidates at squared distance ≥ `max_gap ** 2`, and `break` — i.e. return —
at the first candidate passing the angle test. -/
def select_next_go (angle_test : ℤ × ℤ → ℤ × ℤ → Bool) (orientation : Orientation)
    (used : List ℕ) (last : ℤ × ℤ) (dir_vec : Option (ℤ × ℤ)) (max_gap : ℚ) :
    List (ℕ × (ℤ × ℤ)) → Option (ℕ × (ℤ × ℤ))
  | [] => none
  | ic :: rest =>
    if ic.1 ∈ used then select_next_go angle_test orientation used last dir_vec max_gap rest
    else if ¬ forwardOk orientation last ic.2 then
      select_next_go angle_test orientation used last dir_vec max_gap rest
    else if ¬ (((distSqZ last ic.2 : ℤ) : ℚ) < max_gap ^ 2) then
      select_next_go angle_test orientation used last dir_vec max_gap rest
    else if angle_ok angle_test dir_vec last ic.2 then some ic
    else select_next_go angle_test orientation used last dir_vec max_gap rest

/-- The point appended to the chain in one iteration of the `while True` loop
of layout_analysis.py lines 119-160, as a function of the sorted center list
and the loop state. -/
def select_next (angle_test : ℤ × ℤ → ℤ × ℤ → Bool) (orientation : Orientation)
    (centers_sorted : List (ℤ × ℤ)) (used : List ℕ) (last : ℤ × ℤ)
    (dir_vec : Option (ℤ × ℤ)) (max_gap : ℚ) : Option (ℕ × (ℤ × ℤ)) :=
  select_next_go angle_test orientation used last dir_vec max_gap centers_sorted.enum

/-! ### Search rays (layout_analysis.create_search_line) -/

/-- A detection bounding box, value-compared like the Python dicts. -/
structure BBox where
  x : ℤ
  y : ℤ
  w : ℤ
  h : ℤ
deriving DecidableEq

/-- State of the slab test's `t_near` during the axis loop of
layout_analysis.py lines 275-298: `miss` is the `t_near = inf` set on the
break paths, `ninf` the initial `-inf`, `fin` a finite value. -/
inductive TNear where
  | miss
  | ninf
  | fin (t : ℚ)
deriving DecidableEq

/-- One axis of the slab test, layout_analysis.py lines 278-298.  `t_far`
starts at `+inf` (`none`).  Once a break has set `t_near = inf` the remaining
axis is skipped (`miss` is absorbing). -/
def slab_axis (startc dirc bmin bmax : ℚ) (st : TNear × Option ℚ) : TNear × Option ℚ :=
  match st.1 with
  | .miss => st
  | tn =>
    if |dirc| < 1 / 1000000 then
      if startc < bmin ∨ bmax < startc then (.miss, st.2) else st
    else
      let t1 := (bmin - startc) / dirc
      let t2 := (bmax - startc) / dirc
      let tlo := min t1 t2
      let thi := max t1 t2
      let tnv : ℚ := match tn with | .fin t => max t tlo | _ => tlo
      let tfv : ℚ := match st.2 with | some f => min f thi | none => thi
      if tnv > tfv ∨ tfv < 0 then (.miss, some tfv) else (.fin tnv, some tfv)

/-- Entry parameter of the ray into one padded box (lines 270-298): the slab
test over the x axis then the y axis. -/
def box_intersect_t (center : Pt) (sdx sdy tol : ℚ) (b : BBox) : TNear :=
  let x1 : ℚ := (b.x : ℚ) - tol
  let y1 : ℚ := (b.y : ℚ) - tol
  let x2 : ℚ := (b.x : ℚ) + (b.w : ℚ) + tol
  let y2 : ℚ := (b.y : ℚ) + (b.h : ℚ) + tol
  (slab_axis center.2 sdy y1 y2 (slab_axis center.1 sdx x1 x2 (.ninf, none))).1

/-- `min(t_max, v)` where the accumulator may still be `+inf`. -/
def optMinVal (o : Option ℚ) (v : ℚ) : ℚ :=
  match o with
  | none => v
  | some t => min t v

/-- The boundary parameter `t_max` of layout_analysis.py lines 240-253:
distance along the direction to the image edge, or `max(width, height)` when
no component moves (line 253). -/
def t_max_calc (sdx sdy sx sy image_width image_height : ℚ) : ℚ :=
  let t0 : Option ℚ := none
  let t1 : Option ℚ :=
    if sdx > 1 / 1000000 then some (optMinVal t0 ((image_width - sx) / sdx))
    else if sdx < -(1 / 1000000) then some (optMinVal t0 ((0 - sx) / sdx))
    else t0
  let t2 : Option ℚ :=
    if sdy > 1 / 1000000 then some (optMinVal t1 ((image_height - sy) / sdy))
    else if sdy < -(1 / 1000000) then some (optMinVal t1 ((0 - sy) / sdy))
    else t1
  match t2 with
  | none => max image_width image_height
  | some t => t

/-- Own-box detection of layout_analysis.py lines 258-264: the first box
whose integer `//2` center is within 1 of the ray's start. -/
def own_bbox (center : Pt) (boxes : List BBox) : Option BBox :=
  findFirst
    (fun b => |center.1 - ((b.x + b.w.fdiv 2 : ℤ) : ℚ)| < 1 ∧
      |center.2 - ((b.y + b.h.fdiv 2 : ℤ) : ℚ)| < 1) boxes

/-- Update of `min_intersect_t` by one box, layout_analysis.py lines 300-301:
keep the smallest nonnegative entry parameter below the running minimum. -/
def min_intersect_step (center : Pt) (sdx sdy tol : ℚ) (minT : ℚ) (ob : BBox) : ℚ :=
  match box_intersect_t center sdx sdy tol ob with
  | .fin t => if t < minT ∧ 0 ≤ t then t else minT
  | _ => minT

/-- The truncation loop of layout_analysis.py lines 256-301: fold the boxes,
skipping the (value-equal copies of the) own box. -/
def min_intersect (center : Pt) (sdx sdy tol : ℚ) (current : Option BBox)
    (boxes : List BBox) (t_max : ℚ) : ℚ :=
  boxes.foldl
    (fun minT ob =>
      match current with
      | some cb =>
        if ob = cb then minT else min_intersect_step center sdx sdy tol minT ob
      | none => min_intersect_step center sdx sdy tol minT ob)
    t_max

/-- Body of `layout_analysis.create_search_line` after the direction has been
chosen, lines 229-313, taking the pre-normalization direction as an argument.
The magnitude guard of lines 230-235 is `magnitude > 1e-6`, i.e. (exactly, on
nonnegative reals) `sdx^2 + sdy^2 > 1e-12`; when it fails the source logs an
error and returns `None`.  For the directions the caller constructs (below)
the magnitude is exactly 1, so the normalization division of lines 231-232 is
the identity and is omitted. -/
def create_search_line_from_dir (sdx sdy : ℚ) (orient : Orientation) (center : Pt)
    (all_icon_bboxes : List BBox) (image_width image_height tol : ℚ) :
    Option RefLine :=
  if sdx ^ 2 + sdy ^ 2 ≤ 1 / 1000000000000 then none
  else
    let sx := center.1
    let sy := center.2
    let t_max := t_max_calc sdx sdy sx sy image_width image_height
    let current := own_bbox center all_icon_bboxes
    let final_t := min_intersect center sdx sdy tol current all_icon_bboxes t_max
    let final_end_x := npClip (sx + sdx * final_t) 0 image_width
    let final_end_y := npClip (sy + sdy * final_t) 0 image_height
    some ⟨orient, (pyInt sx, pyInt sy), (pyInt final_end_x, pyInt final_end_y)⟩

/-- `layout_analysis.create_search_line` (lines 206-313).  The search
direction is `(1, 0)` for a vertical reference line and `(0, 1)` for a
horizontal one (lines 221-226); with a `None` reference line the function
returns `None` (lines 211-213). -/
def create_search_line (reference_line : Option RefLine) (center : Pt)
    (all_icon_bboxes : List BBox) (image_width image_height tol : ℚ) :
    Option RefLine :=
  match reference_line with
  | none => none
  | some rl =>
    let d : ℚ × ℚ :=
      match rl.orientation with
      | .vertical => (1, 0)
      | .horizontal => (0, 1)
    create_search_line_from_dir d.1 d.2 rl.orientation center all_icon_bboxes
      image_width image_height tol

/-! ### Search rays (detection/utils.create_search_line) -/

/-- `t < closest_t` with `closest_t` possibly still `+inf`. -/
def ltOptInf (t : ℚ) : Option ℚ → Prop
  | none => True
  | some c => t < c

instance : ∀ t o, Decidable (ltOptInf t o) := fun t o =>
  match o with
  | none => isTrue trivial
  | some c => inferInstanceAs (Decidable (t < c))

/-- The four sequential edge checks of detection/utils.py lines 33-74 for one
box: state is `(closest_t, end_x, end_y)` with `closest_t` starting at `+inf`
(`none`).  Each accepted edge updates all three components before the next
edge is examined. -/
def utils_edge_checks (x y dx dy tol : ℚ) (icon : BBox)
    (st : Option ℚ × ℚ × ℚ) : Option ℚ × ℚ × ℚ :=
  let ix : ℚ := (icon.x : ℚ)
  let iy : ℚ := (icon.y : ℚ)
  let iw : ℚ := (icon.w : ℚ)
  let ih : ℚ := (icon.h : ℚ)
  let st1 :=
    if dx ≠ 0 then
      let t_left := (ix - x) / dx
      let y_left := y + dy * t_left
      if t_left > 0 ∧ iy - tol ≤ y_left ∧ y_left ≤ iy + ih + tol ∧ ltOptInf t_left st.1
      then (some t_left, ix, y_left) else st
    else st
  let st2 :=
    if dx ≠ 0 then
      let t_right := (ix + iw - x) / dx
      let y_right := y + dy * t_right
      if t_right > 0 ∧ iy - tol ≤ y_right ∧ y_right ≤ iy + ih + tol ∧ ltOptInf t_right st1.1
      then (some t_right, ix + iw, y_right) else st1
    else st1
  let st3 :=
    if dy ≠ 0 then
      let t_top := (iy - y) / dy
      let x_top := x + dx * t_top
      if t_top > 0 ∧ ix - tol ≤ x_top ∧ x_top ≤ ix + iw + tol ∧ ltOptInf t_top st2.1
      then (some t_top, x_top, iy) else st2
    else st2
  if dy ≠ 0 then
    let t_bottom := (iy + ih - y) / dy
    let x_bottom := x + dx * t_bottom
    if t_bottom > 0 ∧ ix - tol ≤ x_bottom ∧ x_bottom ≤ ix + iw + tol ∧ ltOptInf t_bottom st3.1
    then (some t_bottom, x_bottom, iy + ih) else st3
  else st3

/-- `detection/utils.create_search_line` (detection/utils.py lines 4-80).
The direction is `(1, perp_slope)`, or `(0, 1)` when the perpendicular slope
is infinite (line 21); `float('inf')` slopes are `none`.  The source divides
the direction by its Euclidean magnitude (lines 24-26); the magnitude is a
fixed positive constant for given inputs, every collision parameter `t`
scales by exactly that constant, and `t` enters the result only through the
products `dx*t`, `dy*t` and the order comparisons `t > 0`, `t < closest_t`,
all invariant under a common positive scaling, so the embedding keeps the
unnormalized direction (for the direction `(0, 1)` of the theorems below the
magnitude is exactly 1).  The `except` fallback of lines 78-80 (a ray to
`(x+10, y+10)`) is unreachable here: every embedded operation is total. -/
def utils_create_search_line (ref_orientation : Orientation)
    (ref_start ref_stop : ℤ × ℤ) (center : Pt) (all_icon_bboxes : List BBox)
    (image_width image_height tol : ℚ) : RefLine :=
  let ref_dx : ℚ := ((ref_stop.1 - ref_start.1 : ℤ) : ℚ)
  let ref_dy : ℚ := ((ref_stop.2 - ref_start.2 : ℤ) : ℚ)
  let ref_slope : Option ℚ := if ref_dx ≠ 0 then some (ref_dy / ref_dx) else none
  let perp_slope : Option ℚ :=
    match ref_slope with
    | some s => if s = 0 then none else some (-1 / s)
    | none => some 0
  let d : ℚ × ℚ := match perp_slope with | some s => (1, s) | none => (0, 1)
  let dx := d.1
  let dy := d.2
  let x := center.1
  let y := center.2
  let end_x0 : ℚ := if dx > 0 then image_width else 0
  let end_y0 : ℚ := if dy > 0 then image_height else 0
  let res := all_icon_bboxes.foldl
    (fun st icon => utils_edge_checks x y dx dy tol icon st) (none, end_x0, end_y0)
  ⟨ref_orientation, (pyInt x, pyInt y), (pyInt res.2.1, pyInt res.2.2)⟩

/-! ### The matcher: data model -/

/-- One detection as `match_app_name_and_usage` consumes it: a class label
and the box geometry (the confidence score is never read by the matcher). -/
structure Det where
  label : String
  x : ℤ
  y : ℤ
  w : ℤ
  h : ℤ
deriving DecidableEq

/-- The coordinate tuple `(d['x'], d['y'], d['w'], d['h'])` the source uses
as identity key. -/
abbrev Key := ℤ × ℤ × ℤ × ℤ

/-- Key of a detection. -/
def detKey (d : Det) : Key := (d.x, d.y, d.w, d.h)

/-- `get_centroid` (layout_analysis.py lines 8-14).  The `x, y, w, h` keys
always exist on the embedded record type, so the missing-key guard of lines
10-12 cannot fire. -/
def get_centroid (d : Det) : Pt := ((d.x : ℚ) + (d.w : ℚ) / 2, (d.y : ℚ) + (d.h : ℚ) / 2)

/-- Integer icon center `(x + w // 2, y + h // 2)` (layout_analysis.py line
363); Python `//` is floor division. -/
def icon_center (d : Det) : ℤ × ℤ := (d.x + d.w.fdiv 2, d.y + d.h.fdiv 2)

/-- The configuration values `match_app_name_and_usage` reads via
`config.get(..., default)` (lines 348-351, 369-371, 386-388); the structure
holds the effective values.  `ref_line_max_gap` and `ref_line_max_angle` are
consumed only inside the abstracted chain-search core and are omitted. -/
structure Cfg where
  app_name_class : String
  app_usage_class : String
  app_icon_class : String
  id_class : String
  ref_line_min_icons : ℕ
  search_line_tolerance : ℚ
  usage_search_distance : ℚ
  name_search_distance : ℚ

/-- One entry of `matched_data`: the record
`{"app_usage": ..., "app_icon": ..., "app_name": ...}`. -/
structure MatchRecord where
  app_usage : Option Det
  app_icon : Option Det
  app_name : Option Det
deriving DecidableEq

/-- Everything `match_app_name_and_usage` returns that the claims mention:
`matched_data` plus the `debug_info` entries for the reference line, the
search lines and the unmatched detections (lines 383, 402, 496-498). -/
structure MatchOutput where
  matched_data : List MatchRecord
  reference_line : Option RefLine
  icon_search_lines : List (Det × RefLine)
  unmatched_app_names : List Det
  unmatched_app_usages : List Det
  unmatched_app_icons : List Det
deriving DecidableEq

/-! ### The matcher: phase 1 and phase 2 claim logic -/

/-- A squared threshold for the running minimum of the phase scans.  The
source initializes `min_dist` with the configured threshold and compares
Euclidean distances against it; in squared space a nonnegative threshold
becomes its square, and a negative threshold — which no nonnegative distance
can beat — becomes the sentinel `-1`. -/
def sq_threshold (thr : ℚ) : ℚ := if 0 ≤ thr then thr ^ 2 else -1

/-- `min_distances.get(u, float('inf')) < bound` (layout_analysis.py lines
419 and 449, and 480 for the fallback): a recorded distance exists and beats
`bound`; a missing key stands for `inf` and never does. -/
def dist_lt (dists : List (Key × ℚ)) (u : Key) (bound : ℚ) : Prop :=
  ∃ d, dict_get dists u = some d ∧ d < bound

instance : ∀ dists u bound, Decidable (dist_lt dists u bound) := fun dists u bound =>
  match h : dict_get dists u with
  | some d =>
    if hd : d < bound then isTrue ⟨d, h, hd⟩
    else isFalse (by rintro ⟨d', h', hd'⟩; rw [h] at h'; cases h'; exact hd hd')
  | none => isFalse (by rintro ⟨d', h', _⟩; rw [h] at h'; cases h')

/-- The claim-update step shared by phase 1 (layout_analysis.py lines
416-423) and phase 2 (lines 446-453, identical logic on the name maps): if
some already-recorded claimant of `ikey` is strictly closer than `minD`, do
nothing; otherwise remove every claim on `ikey` from both maps and record
`ukey ↦ ikey` at distance `minD`. -/
def apply_claim (ms : List (Key × Key)) (ds : List (Key × ℚ))
    (ukey : Key) (best : Option Key) (minD : ℚ) :
    List (Key × Key) × List (Key × ℚ) :=
  match best with
  | none => (ms, ds)
  | some ikey =>
    if ∃ p ∈ ms, p.2 = ikey ∧ dist_lt ds p.1 minD then (ms, ds)
    else
      let ms2 := filterP (fun p => ¬ p.2 = ikey) ms
      let ds2 := filterP (fun p => ¬ ∃ q ∈ ms, q.2 = ikey ∧ q.1 = p.1) ds
      (dict_set ms2 ukey ikey, dict_set ds2 ukey minD)

/-- Phase-1 scan over the search lines for one usage centroid
(layout_analysis.py lines 409-415): keep the strictly closest line's icon
key; state is `(best_icon_key, min_dist)` in squared space. -/
def best_icon_p1 (lines : List (Det × RefLine)) (initSq : ℚ) (c : Pt) :
    Option Key × ℚ :=
  lines.foldl
    (fun st item =>
      let dSq := distance_to_segment_sq c (ptZ item.2.start) (ptZ item.2.stop)
      if dSq < st.2 then (some (detKey item.1), dSq) else st)
    (none, initSq)

/-- Phase-2 scan (lines 440-445): as phase 1, but icons without a phase-1
usage claim are skipped before the distance is computed (line 442). -/
def best_icon_p2 (lines : List (Det × RefLine)) (icons_matched : List Key)
    (initSq : ℚ) (c : Pt) : Option Key × ℚ :=
  lines.foldl
    (fun st item =>
      if detKey item.1 ∉ icons_matched then st
      else
        let dSq := distance_to_segment_sq c (ptZ item.2.start) (ptZ item.2.stop)
        if dSq < st.2 then (some (detKey item.1), dSq) else st)
    (none, initSq)

/-- Phase 1 over all usage detections (lines 406-423), returning
`(usage_matches, min_distances_usage)`. -/
def phase1_fold (lines : List (Det × RefLine)) (initSq : ℚ)
    (app_usages : List Det) : List (Key × Key) × List (Key × ℚ) :=
  app_usages.foldl
    (fun st u =>
      let b := best_icon_p1 lines initSq (get_centroid u)
      apply_claim st.1 st.2 (detKey u) b.1 b.2)
    ([], [])

/-- Phase 2 over all name detections (lines 436-453), returning
`(name_matches, min_distances_name)`. -/
def phase2_fold (lines : List (Det × RefLine)) (icons_matched : List Key)
    (initSq : ℚ) (app_names : List Det) : List (Key × Key) × List (Key × ℚ) :=
  app_names.foldl
    (fun st n =>
      let b := best_icon_p2 lines icons_matched initSq (get_centroid n)
      apply_claim st.1 st.2 (detKey n) b.1 b.2)
    ([], [])

/-! ### The matcher: record construction -/

/-- `next((d for d in dets if key(d) == k), None)`. -/
def find_det (dets : List Det) (k : Key) : Option Det :=
  findFirst (fun d => detKey d = k) dets

/-- `set.discard` on the key-set model. -/
def removeKey (l : List Key) (k : Key) : List Key := filterP (fun x => ¬ x = k) l

/-- Record creation from the phase-1 claims (lines 426-433): one record per
`usage_matches` item whose two detections are found, in insertion order;
returns `(records, unmatched_usages, unmatched_icons, icons_matched_to_usage)`. -/
def phase1_build (ums : List (Key × Key)) (app_usages app_icons : List Det)
    (uU iU : List Key) : List MatchRecord × List Key × List Key × List Key :=
  match ums with
  | [] => ([], uU, iU, [])
  | (u, i) :: rest =>
    match find_det app_usages u, find_det app_icons i with
    | some ud, some idet =>
      let r := phase1_build rest app_usages app_icons (removeKey uU u) (removeKey iU i)
      (⟨some ud, some idet, none⟩ :: r.1, r.2.1, r.2.2.1, i :: r.2.2.2)
    | _, _ => phase1_build rest app_usages app_icons uU iU

/-- Attaching one matched name to `matched_data` (lines 459-464): walk the
records; at the first record carrying icon key `ikey` whose name slot is
empty, fill it and stop; records carrying `ikey` with a name already set are
passed over without a break, as in the source.  The boolean reports whether
a slot was filled (and hence the name key discarded, line 464). -/
def attach_name (recs : List MatchRecord) (nd : Det) (ikey : Key) :
    List MatchRecord × Bool :=
  match recs with
  | [] => ([], false)
  | r :: rest =>
    match r.app_icon with
    | some idet =>
      if detKey idet = ikey then
        match r.app_name with
        | none => ({ r with app_name := some nd } :: rest, true)
        | some _ =>
          let t := attach_name rest nd ikey
          (r :: t.1, t.2)
      else
        let t := attach_name rest nd ikey
        (r :: t.1, t.2)
    | none =>
      let t := attach_name rest nd ikey
      (r :: t.1, t.2)

/-- All phase-2 attachments (lines 456-464), also maintaining the unmatched
name keys. -/
def phase2_attach (nms : List (Key × Key)) (app_names : List Det)
    (recs : List MatchRecord) (nU : List Key) : List MatchRecord × List Key :=
  match nms with
  | [] => (recs, nU)
  | (n, i) :: rest =>
    match find_det app_names n with
    | none => phase2_attach rest app_names recs nU
    | some nd =>
      let t := attach_name recs nd i
      phase2_attach rest app_names t.1 (if t.2 then removeKey nU n else nU)

/-! ### The matcher: fallback path -/

/-- Fallback scan over the name detections for one usage centroid
(layout_analysis.py lines 472-481): squared Euclidean centroid distance, no
threshold (`min_dist_sq` starts at `inf`, modelled by the `none` state); a
name already claimed strictly closer by another usage is skipped as a
candidate (lines 478-481). -/
def best_name_candidate (map : List (Key × Key)) (dists : List (Key × ℚ))
    (st : Option (Key × ℚ)) (nkey : Key) (dSq : ℚ) : Option (Key × ℚ) :=
  if ∃ q ∈ map, q.2 = nkey ∧ dist_lt dists q.1 dSq then st else some (nkey, dSq)

/-- The fold step of the fallback scan: a candidate enters only when strictly
below the running minimum (everything is below the initial `inf`, i.e.
`none`). -/
def best_name_fb (app_names : List Det) (map : List (Key × Key))
    (dists : List (Key × ℚ)) (uc : Pt) : Option (Key × ℚ) :=
  app_names.foldl
    (fun st nd =>
      let nkey := detKey nd
      let dSq := normSq (vsub uc (get_centroid nd))
      match st with
      | none => best_name_candidate map dists none nkey dSq
      | some p =>
        if dSq < p.2 then best_name_candidate map dists (some p) nkey dSq
        else some p)
    none

/-- The fallback usage→name auction (lines 469-485), returning
`(usage_to_name_map, min_usage_name_dist)`.  Unlike `apply_claim`, the
better-claimed check already happened during the scan, so an accepted best
name unconditionally displaces existing claims (lines 482-485). -/
def fallback_fold (app_names app_usages : List Det) :
    List (Key × Key) × List (Key × ℚ) :=
  app_usages.foldl
    (fun st u =>
      match best_name_fb app_names st.1 st.2 (get_centroid u) with
      | none => st
      | some (nkey, dSq) =>
        let m2 := filterP (fun p => ¬ p.2 = nkey) st.1
        let d2 := filterP (fun p => ¬ ∃ q ∈ st.1, q.2 = nkey ∧ q.1 = p.1) st.2
        (dict_set m2 (detKey u) nkey, dict_set d2 (detKey u) dSq))
    ([], [])

/-- Record creation from the fallback claims (lines 488-493); returns
`(records, unmatched_usages, unmatched_names)`. -/
def fallback_build (map : List (Key × Key)) (app_usages app_names : List Det)
    (uU nU : List Key) : List MatchRecord × List Key × List Key :=
  match map with
  | [] => ([], uU, nU)
  | (u, n) :: rest =>
    match find_det app_usages u, find_det app_names n with
    | some ud, some nd =>
      let r := fallback_build rest app_usages app_names (removeKey uU u) (removeKey nU n)
      (⟨some ud, none, some nd⟩ :: r.1, r.2.1, r.2.2)
    | _, _ => fallback_build rest app_usages app_names uU nU

/-! ### The matcher: top level -/

/-- The icon bounding boxes handed to the search-ray builder
(layout_analysis.py line 392). -/
def icon_bboxes (app_icons : List Det) : List BBox :=
  app_icons.map fun i => ⟨i.x, i.y, i.w, i.h⟩

/-- Body of the search-line construction loop (lines 394-401): one line per
icon, built from its integer center against the fixed list `bboxes` of all
icon boxes; a `None` line is dropped. -/
def build_search_lines_go (rl : RefLine) (bboxes : List BBox) (icons : List Det)
    (image_width image_height tol : ℚ) : List (Det × RefLine) :=
  match icons with
  | [] => []
  | icon :: rest =>
    match create_search_line (some rl) (ptZ (icon_center icon))
        bboxes image_width image_height tol with
    | some s =>
      (icon, s) :: build_search_lines_go rl bboxes rest image_width image_height tol
    | none => build_search_lines_go rl bboxes rest image_width image_height tol

/-- Search-line construction (lines 392-401): `all_icon_bboxes_for_search`
is built once from the full icon list (line 392) and that same list is
passed to `create_search_line` for every icon. -/
def build_search_lines (rl : RefLine) (app_icons : List Det)
    (image_width image_height tol : ℚ) : List (Det × RefLine) :=
  build_search_lines_go rl (icon_bboxes app_icons) app_icons
    image_width image_height tol

/-- The search-ray matching block (lines 385-464) run when a reference line
exists: phases 1 and 2 plus record construction; returns the records and the
three unmatched key sets. -/
def ray_phase (sl : List (Det × RefLine)) (cfg : Cfg)
    (app_names app_usages app_icons : List Det) (nU uU iU : List Key) :
    List MatchRecord × List Key × List Key × List Key :=
  let p1 := phase1_fold sl (sq_threshold cfg.usage_search_distance) app_usages
  let b := phase1_build p1.1 app_usages app_icons uU iU
  let p2 := phase2_fold sl b.2.2.2 (sq_threshold cfg.name_search_distance) app_names
  let a := phase2_attach p2.1 app_names b.1 nU
  (a.1, a.2, b.2.1, b.2.2.1)

/-- Lines 375-381 of layout_analysis.py: the reference line is attempted only
when at least `ref_line_min_icons` icon detections exist. -/
def reference_line_of (ref_core : List (ℤ × ℤ) → Option RefLine)
    (dets : List Det) (cfg : Cfg) : Option RefLine :=
  if cfg.ref_line_min_icons ≤ (filterP (fun d => d.label = cfg.app_icon_class) dets).length then
    find_reference_line ref_core
      ((filterP (fun d => d.label = cfg.app_icon_class) dets).map icon_center)
      cfg.ref_line_min_icons
  else none

/-- `layout_analysis.match_app_name_and_usage` (lines 338-502), with the
reference-line chain search abstracted as `ref_core` (see
`find_reference_line`).  Detections are split by label (lines 353-356); the
reference line is attempted only with at least `ref_line_min_icons` icons
(lines 375-381); search-ray matching runs when a line exists (lines
385-464); the fallback runs when no search line was built and names and
usages both exist (lines 466-493); the unmatched detections are the
label-filtered lists restricted to the surviving key sets (lines 496-498). -/
def match_app_name_and_usage (ref_core : List (ℤ × ℤ) → Option RefLine)
    (dets : List Det) (image_height image_width : ℚ) (cfg : Cfg) : MatchOutput :=
  let app_names := filterP (fun d => d.label = cfg.app_name_class) dets
  let app_usages := filterP (fun d => d.label = cfg.app_usage_class) dets
  let app_icons := filterP (fun d => d.label = cfg.app_icon_class) dets
  let nU0 := app_names.map detKey
  let uU0 := app_usages.map detKey
  let iU0 := app_icons.map detKey
  let reference_line := reference_line_of ref_core dets cfg
  let withLine :=
    match reference_line with
    | some rl =>
      let sl := build_search_lines rl app_icons image_width image_height
        cfg.search_line_tolerance
      (sl, ray_phase sl cfg app_names app_usages app_icons nU0 uU0 iU0)
    | none => ([], ([], nU0, uU0, iU0))
  let sl : List (Det × RefLine) := withLine.1
  let matched1 : List MatchRecord := withLine.2.1
  let nU1 : List Key := withLine.2.2.1
  let uU1 : List Key := withLine.2.2.2.1
  let iU1 : List Key := withLine.2.2.2.2
  let final : List MatchRecord × List Key × List Key :=
    if sl = [] ∧ app_names ≠ [] ∧ app_usages ≠ [] then
      let fb := fallback_fold app_names app_usages
      let fr := fallback_build fb.1 app_usages app_names uU1 nU1
      (matched1 ++ fr.1, fr.2.2, fr.2.1)
    else (matched1, nU1, uU1)
  { matched_data := final.1
    reference_line := reference_line
    icon_search_lines := sl
    unmatched_app_names := filterP (fun d => detKey d ∈ final.2.1) app_names
    unmatched_app_usages := filterP (fun d => detKey d ∈ final.2.2) app_usages
    unmatched_app_icons := filterP (fun d => detKey d ∈ iU1) app_icons }

/-! ### General helper lemmas -/

theorem findFirst_eq_some {α : Type} {p : α → Prop} [DecidablePred p] {l : List α}
    {a : α} (h : findFirst p l = some a) : a ∈ l ∧ p a := by
  induction l with
  | nil => cases h
  | cons b rest ih =>
    unfold findFirst at h
    by_cases hb : p b
    · rw [if_pos hb] at h
      cases h
      exact ⟨List.mem_cons_self _ _, hb⟩
    · rw [if_neg hb] at h
      rcases ih h with ⟨hm, hp⟩
      exact ⟨List.mem_cons_of_mem _ hm, hp⟩

theorem filterP_sublist {α : Type} (p : α → Prop) [DecidablePred p] (l : List α) :
    (filterP p l).Sublist l := by
  induction l with
  | nil => exact List.Sublist.refl _
  | cons a rest ih =>
    unfold filterP
    by_cases ha : p a
    · rw [if_pos ha]; exact ih.cons₂ a
    · rw [if_neg ha]; exact ih.cons a

theorem mem_filterP {α : Type} {p : α → Prop} [DecidablePred p] {l : List α} {a : α} :
    a ∈ filterP p l ↔ a ∈ l ∧ p a := by
  induction l with
  | nil => simp [filterP]
  | cons b rest ih =>
    unfold filterP
    by_cases hb : p b
    · rw [if_pos hb]
      simp only [List.mem_cons, ih]
      constructor
      · rintro (rfl | ⟨hm, hp⟩)
        · exact ⟨Or.inl rfl, hb⟩
        · exact ⟨Or.inr hm, hp⟩
      · rintro ⟨rfl | hm, hp⟩
        · exact Or.inl rfl
        · exact Or.inr ⟨hm, hp⟩
    · rw [if_neg hb]
      simp only [List.mem_cons, ih]
      constructor
      · rintro ⟨hm, hp⟩
        exact ⟨Or.inr hm, hp⟩
      · rintro ⟨rfl | hm, hp⟩
        · exact absurd hp hb
        · exact ⟨hm, hp⟩

/-! ### Claim C5: degenerate search-ray direction -/

/-- C5 (amended): when the search-ray direction vector is degenerate
(magnitude at most 1e-6, i.e. squared magnitude at most 1e-12),
`layout_analysis.create_search_line` fails closed by returning `None` — no
ray at all — rather than raising; it does not return a ray of fixed minimal
length (that fallback exists only in the `detection/utils` variant's
exception handler). -/
theorem C5_degenerate_direction_returns_none (sdx sdy : ℚ) (orient : Orientation)
    (center : Pt) (boxes : List BBox) (image_width image_height tol : ℚ)
    (h : sdx ^ 2 + sdy ^ 2 ≤ 1 / 1000000000000) :
    create_search_line_from_dir sdx sdy orient center boxes
      image_width image_height tol = none := by
  unfold create_search_line_from_dir
  rw [if_pos h]

theorem C5_degenerate_direction_returns_none_witness :
    ((0 : ℚ) ^ 2 + (0 : ℚ) ^ 2 ≤ 1 / 1000000000000) ∧
    create_search_line_from_dir 0 0 Orientation.vertical ((5 : ℚ), (5 : ℚ)) []
      100 100 5 = none :=
  ⟨by norm_num,
    C5_degenerate_direction_returns_none 0 0 Orientation.vertical ((5 : ℚ), (5 : ℚ))
      [] 100 100 5 (by norm_num)⟩

/-- C5 counterexample: for the zero direction vector the function returns
`none` — no ray — whereas the claim asserts a ray of fixed minimal length
starting at the anchor center is returned. -/
theorem C5_counterexample :
    create_search_line_from_dir 0 0 Orientation.horizontal ((10 : ℚ), (20 : ℚ))
      [⟨0, 0, 5, 5⟩] 640 480 5 = none := by
  norm_num [create_search_line_from_dir]

/-! ### Claim C3: orientation priority of the reference-line search -/

theorem infLt_irrefl (a : Option ℚ) : ¬ infLt a a := by
  cases a with
  | none => exact id
  | some x => exact lt_irrefl x

theorem infLt_asymm {a b : Option ℚ} (h : infLt a b) : ¬ infLt b a := by
  cases a with
  | none => cases h
  | some x =>
    cases b with
    | none => exact id
    | some y => exact not_lt_of_gt h

/-- C3 (amended): the reference-line search tries first the orientation whose
average inter-point spacing along the orthogonal axis is strictly smaller
(columns/vertical when the x-spacing is smaller, rows/horizontal when the
y-spacing is smaller or not comparable as strictly smaller); when the two
average spacings are exactly equal, the horizontal orientation — not the
vertical one — is tried first. -/
theorem C3_orientation_priority (cs : List (ℤ × ℤ)) :
    (infLt (compute_avg_spacing (xcoords cs)) (compute_avg_spacing (ycoords cs)) →
      primary_orientation cs = Orientation.vertical ∧
      secondary_orientation cs = Orientation.horizontal) ∧
    (infLt (compute_avg_spacing (ycoords cs)) (compute_avg_spacing (xcoords cs)) →
      primary_orientation cs = Orientation.horizontal ∧
      secondary_orientation cs = Orientation.vertical) ∧
    (compute_avg_spacing (xcoords cs) = compute_avg_spacing (ycoords cs) →
      primary_orientation cs = Orientation.horizontal) := by
  refine ⟨fun h => ?_, fun h => ?_, fun h => ?_⟩
  · have hp : prioritize_columns cs := h
    unfold primary_orientation secondary_orientation
    rw [if_pos hp, if_pos hp]
    exact ⟨rfl, rfl⟩
  · have hp : ¬ prioritize_columns cs := infLt_asymm h
    unfold primary_orientation secondary_orientation
    rw [if_neg hp, if_neg hp]
    exact ⟨rfl, rfl⟩
  · have hp : ¬ prioritize_columns cs := by
      unfold prioritize_columns
      rw [h]
      exact infLt_irrefl _
    unfold primary_orientation
    rw [if_neg hp]

theorem C3_orientation_priority_witness :
    (infLt (compute_avg_spacing (xcoords [((0 : ℤ), (0 : ℤ)), (0, 30)]))
        (compute_avg_spacing (ycoords [((0 : ℤ), (0 : ℤ)), (0, 30)])) ∧
      primary_orientation [((0 : ℤ), (0 : ℤ)), (0, 30)] = Orientation.vertical) ∧
    (infLt (compute_avg_spacing (ycoords [((0 : ℤ), (0 : ℤ)), (30, 0)]))
        (compute_avg_spacing (xcoords [((0 : ℤ), (0 : ℤ)), (30, 0)])) ∧
      primary_orientation [((0 : ℤ), (0 : ℤ)), (30, 0)] = Orientation.horizontal) ∧
    (compute_avg_spacing (xcoords [((0 : ℤ), (0 : ℤ)), (10, 10)]) =
        compute_avg_spacing (ycoords [((0 : ℤ), (0 : ℤ)), (10, 10)]) ∧
      primary_orientation [((0 : ℤ), (0 : ℤ)), (10, 10)] = Orientation.horizontal) := by
  have h1 : infLt (compute_avg_spacing (xcoords [((0 : ℤ), (0 : ℤ)), (0, 30)]))
      (compute_avg_spacing (ycoords [((0 : ℤ), (0 : ℤ)), (0, 30)])) := by
    norm_num [compute_avg_spacing, xcoords, ycoords, sortRats, insertRat, consecGaps, infLt]
  have h2 : infLt (compute_avg_spacing (ycoords [((0 : ℤ), (0 : ℤ)), (30, 0)]))
      (compute_avg_spacing (xcoords [((0 : ℤ), (0 : ℤ)), (30, 0)])) := by
    norm_num [compute_avg_spacing, xcoords, ycoords, sortRats, insertRat, consecGaps, infLt]
  have h3 : compute_avg_spacing (xcoords [((0 : ℤ), (0 : ℤ)), (10, 10)]) =
      compute_avg_spacing (ycoords [((0 : ℤ), (0 : ℤ)), (10, 10)]) := by
    norm_num [compute_avg_spacing, xcoords, ycoords, sortRats, insertRat, consecGaps]
  exact ⟨⟨h1, ((C3_orientation_priority _).1 h1).1⟩,
    ⟨h2, ((C3_orientation_priority _).2.1 h2).1⟩,
    ⟨h3, (C3_orientation_priority _).2.2 h3⟩⟩

/-- C3 counterexample: three centers whose x- and y-spacings are exactly
equal; the claim says the vertical orientation is tried first, but the code
tries the horizontal one. -/
theorem C3_counterexample :
    compute_avg_spacing (xcoords [((0 : ℤ), (0 : ℤ)), (10, 10), (20, 20)]) =
      compute_avg_spacing (ycoords [((0 : ℤ), (0 : ℤ)), (10, 10), (20, 20)]) ∧
    primary_orientation [((0 : ℤ), (0 : ℤ)), (10, 10), (20, 20)] = Orientation.horizontal ∧
    primary_orientation [((0 : ℤ), (0 : ℤ)), (10, 10), (20, 20)] ≠ Orientation.vertical := by
  refine ⟨?_, ?_, ?_⟩
  · norm_num [compute_avg_spacing, xcoords, ycoords, sortRats, insertRat, consecGaps]
  · norm_num [primary_orientation, prioritize_columns, compute_avg_spacing, xcoords,
      ycoords, sortRats, insertRat, consecGaps, infLt]
  · have hh : primary_orientation [((0 : ℤ), (0 : ℤ)), (10, 10), (20, 20)] =
        Orientation.horizontal := by
      norm_num [primary_orientation, prioritize_columns, compute_avg_spacing, xcoords,
        ycoords, sortRats, insertRat, consecGaps, infLt]
    rw [hh]
    intro hc
    exact Orientation.noConfusion hc

/-! ### Claim C4: greedy chain extension takes the first candidate in scan
order, not the nearest -/

theorem select_next_go_eq (angle_test : ℤ × ℤ → ℤ × ℤ → Bool) (o : Orientation)
    (used : List ℕ) (last : ℤ × ℤ) (dv : Option (ℤ × ℤ)) (g : ℚ)
    (l : List (ℕ × (ℤ × ℤ))) :
    select_next_go angle_test o used last dv g l =
      findFirst (next_point_ok angle_test o used last dv g) l := by
  induction l with
  | nil => rfl
  | cons ic rest ih =>
    unfold select_next_go findFirst
    by_cases h1 : ic.1 ∈ used
    · rw [if_pos h1, ih, if_neg]
      rintro ⟨h, -⟩
      exact h h1
    · rw [if_neg h1]
      by_cases h2 : forwardOk o last ic.2
      · rw [if_neg (not_not_intro h2)]
        by_cases h3 : ((distSqZ last ic.2 : ℤ) : ℚ) < g ^ 2
        · rw [if_neg (not_not_intro h3)]
          by_cases h4 : angle_ok angle_test dv last ic.2
          · rw [if_pos h4, if_pos ⟨h1, h2, h3, h4⟩]
          · rw [if_neg h4, ih, if_neg]
            rintro ⟨-, -, -, h⟩
            exact h4 h
        · rw [if_pos h3, ih, if_neg]
          rintro ⟨-, -, h, -⟩
          exact h3 h
      · rw [if_pos h2, ih, if_neg]
        rintro ⟨-, h, -⟩
        exact h2 h

/-- C4 (amended): when extending a chain, the point appended is the first
point in the axis-sorted scan order that is unused, lies strictly forward,
is within the maximum gap distance and passes the turning-angle test — not
the nearest such point (and not a smallest-angle or smallest-distance
tie-break). -/
theorem C4_first_satisfying_candidate (angle_test : ℤ × ℤ → ℤ × ℤ → Bool)
    (o : Orientation) (centers_sorted : List (ℤ × ℤ)) (used : List ℕ)
    (last : ℤ × ℤ) (dv : Option (ℤ × ℤ)) (g : ℚ) :
    select_next angle_test o centers_sorted used last dv g =
      findFirst (next_point_ok angle_test o used last dv g) centers_sorted.enum :=
  select_next_go_eq angle_test o used last dv g centers_sorted.enum

/-- C4 counterexample: from last point `(0,0)` (chain of length 1, so the
angle test is never consulted), the candidates sorted by y are `(50,10)` at
index 1 and `(0,20)` at index 2; both satisfy every constraint, `(0,20)` is
strictly nearer, yet the code appends `(50,10)`, the first in scan order. -/
theorem C4_counterexample :
    select_next (fun _ _ => false) Orientation.vertical
        [((0 : ℤ), (0 : ℤ)), (50, 10), (0, 20)] [0] (0, 0) none 60 =
      some (1, (50, 10)) ∧
    next_point_ok (fun _ _ => false) Orientation.vertical [0] (0, 0) none 60
      (2, (0, 20)) ∧
    distSqZ (0, 0) (0, 20) < distSqZ (0, 0) (50, 10) := by
  refine ⟨?_, ?_, ?_⟩
  · norm_num [select_next, select_next_go, List.enum, List.enumFrom, angle_ok,
      forwardOk, distSqZ]
  · refine ⟨by norm_num, by norm_num [forwardOk], by norm_num [distSqZ], ?_⟩
    simp [angle_ok]
  · norm_num [distSqZ]

/-! ### Claim C6: distance_to_segment symmetry and endpoint clamping -/

/-- The unclamped projection parameter of `p` onto the line through `a` and
`b` (the `t` of layout_analysis.py line 329). -/
def proj_param (p a b : Pt) : ℚ :=
  dot (vsub p a) (vsub b a) / dot (vsub b a) (vsub b a)

theorem npClip_one_sub (t : ℚ) : npClip (1 - t) 0 1 = 1 - npClip t 0 1 := by
  unfold npClip
  rcases le_total t 0 with h0 | h0
  · rw [max_eq_right h0, min_eq_right (by norm_num : (0 : ℚ) ≤ 1),
      max_eq_left (by linarith : (0 : ℚ) ≤ 1 - t),
      min_eq_left (by linarith : (1 : ℚ) ≤ 1 - t)]
    ring
  · rcases le_total 1 t with h1 | h1
    · rw [max_eq_left (by linarith : (0 : ℚ) ≤ t), min_eq_left h1,
        max_eq_right (by linarith : 1 - t ≤ 0),
        min_eq_right (by norm_num : (0 : ℚ) ≤ 1)]
      ring
    · rw [max_eq_left h0, min_eq_right h1,
        max_eq_left (by linarith : (0 : ℚ) ≤ 1 - t),
        min_eq_right (by linarith : 1 - t ≤ 1)]

theorem dist_seg_symm (p a b : Pt)
    (h9 : 1 / 1000000000 ≤ dot (vsub b a) (vsub b a)) :
    distance_to_segment_sq p a b = distance_to_segment_sq p b a := by
  have hne : dot (vsub b a) (vsub b a) ≠ 0 :=
    ne_of_gt (lt_of_lt_of_le (by norm_num) h9)
  have hDsym : dot (vsub a b) (vsub a b) = dot (vsub b a) (vsub b a) := by
    simp only [dot, vsub]
    ring
  have hnn : dot (vsub p b) (vsub a b) =
      dot (vsub b a) (vsub b a) - dot (vsub p a) (vsub b a) := by
    simp only [dot, vsub]
    ring
  simp only [distance_to_segment_sq]
  rw [if_neg (not_lt.mpr h9), if_neg (by rw [hDsym]; exact not_lt.mpr h9)]
  rw [hnn, hDsym]
  have ht : (dot (vsub b a) (vsub b a) - dot (vsub p a) (vsub b a)) /
      dot (vsub b a) (vsub b a) =
      1 - dot (vsub p a) (vsub b a) / dot (vsub b a) (vsub b a) := by
    field_simp
  rw [ht, npClip_one_sub]
  set tc := npClip (dot (vsub p a) (vsub b a) / dot (vsub b a) (vsub b a)) 0 1
  simp only [normSq, vsub, vadd, smul]
  ring

theorem dist_seg_outside (p a b : Pt)
    (h9 : 1 / 1000000000 ≤ dot (vsub b a) (vsub b a))
    (hout : proj_param p a b < 0 ∨ 1 < proj_param p a b) :
    distance_to_segment_sq p a b = min (normSq (vsub p a)) (normSq (vsub p b)) := by
  have hD : (0 : ℚ) < dot (vsub b a) (vsub b a) := lt_of_lt_of_le (by norm_num) h9
  have hkey : normSq (vsub p b) - normSq (vsub p a) =
      dot (vsub b a) (vsub b a) - 2 * dot (vsub p a) (vsub b a) := by
    simp only [normSq, vsub, dot]
    ring
  simp only [distance_to_segment_sq]
  rw [if_neg (not_lt.mpr h9)]
  rcases hout with hlt | hgt
  · unfold proj_param at hlt
    have hn : dot (vsub p a) (vsub b a) < 0 := by
      by_contra hc
      push_neg at hc
      exact absurd (div_nonneg hc hD.le) (not_le.mpr hlt)
    have hclip : npClip (dot (vsub p a) (vsub b a) / dot (vsub b a) (vsub b a)) 0 1 = 0 := by
      unfold npClip
      rw [max_eq_right (le_of_lt hlt), min_eq_right (by norm_num : (0 : ℚ) ≤ 1)]
    rw [hclip, min_eq_left (by linarith)]
    simp only [normSq, vsub, vadd, smul]
    ring
  · unfold proj_param at hgt
    have hn : dot (vsub b a) (vsub b a) < dot (vsub p a) (vsub b a) := by
      have h2 := (lt_div_iff₀ hD).mp hgt
      linarith
    have hclip : npClip (dot (vsub p a) (vsub b a) / dot (vsub b a) (vsub b a)) 0 1 = 1 := by
      unfold npClip
      rw [max_eq_left (le_of_lt (lt_trans one_pos hgt)), min_eq_left (le_of_lt hgt)]
    rw [hclip, min_eq_right (by linarith)]
    simp only [normSq, vsub, vadd, smul]
    ring

/-- C6 (amended): `layout_analysis.distance_to_segment` is symmetric under
segment endpoint swap whenever the squared segment length is at least the
degenerate-segment guard 1e-9 (below the guard the function returns the
distance to the first endpoint, which is not swap-symmetric for tiny nonzero
segments — see the counterexample; the `detection/utils` variant, whose
projection denominator is regularized by +1e-6, is not exactly symmetric
either); outside the guard, when the unclamped projection parameter falls
outside [0,1], the result is exactly the Euclidean distance to the nearer
endpoint, and the test literal — point (0,10), segment (0,0)-(0,5) — gives
distance 5.0.  All statements are at the squared-distance level; squaring is
injective on nonnegative reals, so they are equivalent to the source's. -/
theorem C6_distance_to_segment_properties (p a b : Pt) :
    (1 / 1000000000 ≤ dot (vsub b a) (vsub b a) →
      distance_to_segment_sq p a b = distance_to_segment_sq p b a) ∧
    (1 / 1000000000 ≤ dot (vsub b a) (vsub b a) →
      (proj_param p a b < 0 ∨ 1 < proj_param p a b) →
      distance_to_segment_sq p a b = min (normSq (vsub p a)) (normSq (vsub p b))) ∧
    distance_to_segment_sq ((0 : ℚ), (10 : ℚ)) (0, 0) (0, 5) = 5 ^ 2 := by
  refine ⟨fun h9 => dist_seg_symm p a b h9,
    fun h9 hout => dist_seg_outside p a b h9 hout, ?_⟩
  norm_num [distance_to_segment_sq, dot, vsub, vadd, smul, normSq, npClip]

theorem C6_distance_to_segment_properties_witness :
    ((1 : ℚ) / 1000000000 ≤
        dot (vsub ((0 : ℚ), (5 : ℚ)) (0, 0)) (vsub ((0 : ℚ), (5 : ℚ)) (0, 0))) ∧
    (1 < proj_param ((0 : ℚ), (10 : ℚ)) (0, 0) (0, 5)) ∧
    distance_to_segment_sq ((0 : ℚ), (10 : ℚ)) (0, 0) (0, 5) =
      distance_to_segment_sq ((0 : ℚ), (10 : ℚ)) (0, 5) (0, 0) ∧
    distance_to_segment_sq ((0 : ℚ), (10 : ℚ)) (0, 0) (0, 5) =
      min (normSq (vsub ((0 : ℚ), (10 : ℚ)) (0, 0)))
        (normSq (vsub ((0 : ℚ), (10 : ℚ)) (0, 5))) := by
  have h9 : (1 : ℚ) / 1000000000 ≤
      dot (vsub ((0 : ℚ), (5 : ℚ)) (0, 0)) (vsub ((0 : ℚ), (5 : ℚ)) (0, 0)) := by
    norm_num [dot, vsub]
  have hout : 1 < proj_param ((0 : ℚ), (10 : ℚ)) (0, 0) (0, 5) := by
    norm_num [proj_param, dot, vsub]
  exact ⟨h9, hout,
    (C6_distance_to_segment_properties ((0 : ℚ), (10 : ℚ)) (0, 0) (0, 5)).1 h9,
    (C6_distance_to_segment_properties ((0 : ℚ), (10 : ℚ)) (0, 0) (0, 5)).2.1 h9
      (Or.inr hout)⟩

/-- C6 counterexample: a segment of length 1e-5 has squared length 1e-10,
below the 1e-9 degenerate guard, so the source returns the distance to the
first endpoint; swapping the endpoints changes the answer (1 versus
(99999/100000)^2 at the squared level, 1.0 versus 0.99999 in the source), so
`distance_to_segment` is not symmetric under endpoint swap for every point
and segment as claimed. -/
theorem C6_counterexample :
    distance_to_segment_sq ((1 : ℚ), 0) (0, 0) (1 / 100000, 0) = 1 ∧
    distance_to_segment_sq ((1 : ℚ), 0) (1 / 100000, 0) (0, 0) = (99999 / 100000) ^ 2 ∧
    ((1 : ℚ)) ≠ (99999 / 100000) ^ 2 := by
  refine ⟨?_, ?_, by norm_num⟩
  · norm_num [distance_to_segment_sq, dot, vsub, vadd, smul, normSq, npClip]
  · norm_num [distance_to_segment_sq, dot, vsub, vadd, smul, normSq, npClip]

/-! ### Claim C10: the grid-failure branch is unreachable with enough icons -/

theorem length_insertInt (a : ℤ) (l : List ℤ) :
    (insertInt a l).length = l.length + 1 := by
  induction l with
  | nil => rfl
  | cons b bs ih =>
    unfold insertInt
    by_cases hb : b ≤ a
    · rw [if_pos hb]
      simp [ih]
    · rw [if_neg hb]
      simp

theorem length_sortInts (l : List ℤ) : (sortInts l).length = l.length := by
  induction l with
  | nil => rfl
  | cons a as ih =>
    unfold sortInts
    rw [length_insertInt, ih]
    rfl

theorem groupRowsGo_ne_nil (gap prev : ℤ) (acc : List ℤ) (ys : List ℤ) :
    groupRowsGo gap prev acc ys ≠ [] := by
  induction ys generalizing prev acc with
  | nil => simp [groupRowsGo]
  | cons y ys ih =>
    unfold groupRowsGo
    by_cases hy : y - prev > gap
    · rw [if_pos hy]
      simp
    · rw [if_neg hy]
      exact ih y (y :: acc)

theorem groupRowsGo_groups_ne_nil (gap prev : ℤ) (acc ys : List ℤ)
    (hacc : acc ≠ []) : ∀ g ∈ groupRowsGo gap prev acc ys, g ≠ [] := by
  induction ys generalizing prev acc with
  | nil =>
    intro g hg
    unfold groupRowsGo at hg
    rcases List.mem_singleton.mp hg with rfl
    simpa using hacc
  | cons y ys ih =>
    intro g hg
    unfold groupRowsGo at hg
    by_cases hy : y - prev > gap
    · rw [if_pos hy] at hg
      rcases List.mem_cons.mp hg with rfl | hmem
      · simpa using hacc
      · exact ih y [y] (by simp) g hmem
    · rw [if_neg hy] at hg
      exact ih y (y :: acc) (by simp) g hg

theorem le_foldl_max (xs : List ℕ) (init : ℕ) : init ≤ xs.foldl Nat.max init := by
  induction xs generalizing init with
  | nil => exact le_refl _
  | cons x xs ih =>
    exact le_trans (Nat.le_max_left init x) (ih (Nat.max init x))

/-- C10: with at least two icon centers, `detect_grid` reports at least one
row and at least one column; consequently, whenever `find_reference_line` is
reached with `min_icons ≥ 2` and at least `min_icons` centers, the
grid-failure early return (0 rows or 0 columns) is never taken and the
function proceeds to the chain-search core. -/
theorem C10_grid_failure_unreachable (centers : List (ℤ × ℤ))
    (core : List (ℤ × ℤ) → Option RefLine) (min_icons : ℕ) :
    (2 ≤ centers.length →
      1 ≤ (detect_grid centers).1 ∧ 1 ≤ (detect_grid centers).2) ∧
    (2 ≤ min_icons → min_icons ≤ centers.length →
      find_reference_line core centers min_icons = core centers) := by
  have main : 2 ≤ centers.length →
      1 ≤ (detect_grid centers).1 ∧ 1 ≤ (detect_grid centers).2 := by
    intro h2
    unfold detect_grid
    rw [if_neg (by omega)]
    have hlen : (sortInts (centers.map Prod.snd)).length = centers.length := by
      rw [length_sortInts, List.length_map]
    have hne : sortInts (centers.map Prod.snd) ≠ [] := by
      intro hnil
      rw [hnil] at hlen
      simp at hlen
      omega
    rcases hl : sortInts (centers.map Prod.snd) with - | ⟨y, ys⟩
    · exact absurd hl hne
    constructor
    · have := groupRowsGo_ne_nil MAX_ROW_GAP y [y] ys
      simp only [groupRows]
      exact Nat.one_le_iff_ne_zero.mpr (by simpa [List.length_eq_zero] using this)
    · simp only [groupRows]
      rcases hg : groupRowsGo MAX_ROW_GAP y [y] ys with - | ⟨g, gs⟩
      · exact absurd hg (groupRowsGo_ne_nil MAX_ROW_GAP y [y] ys)
      have hgne : g ≠ [] :=
        groupRowsGo_groups_ne_nil MAX_ROW_GAP y [y] ys (by simp) g
          (by rw [hg]; exact List.mem_cons_self _ _)
      have hg1 : 1 ≤ g.length := List.length_pos.mpr hgne
      simp only [List.map_cons, List.foldl_cons]
      calc 1 ≤ g.length := hg1
        _ ≤ Nat.max 0 g.length := Nat.le_max_right _ _
        _ ≤ _ := le_foldl_max _ _
  refine ⟨main, fun hmin hlen => ?_⟩
  unfold find_reference_line
  rw [if_neg, if_neg]
  · rcases main (le_trans hmin hlen) with ⟨h1, h2⟩
    rintro (hc | hc)
    · omega
    · omega
  · rintro (hc | hc)
    · have : centers.length = 0 := List.isEmpty_iff_length_eq_zero.mp hc
      omega
    · omega

theorem C10_grid_failure_unreachable_witness :
    (2 ≤ ([((0 : ℤ), (0 : ℤ)), (0, 100)] : List (ℤ × ℤ)).length) ∧
    1 ≤ (detect_grid [((0 : ℤ), (0 : ℤ)), (0, 100)]).1 ∧
    1 ≤ (detect_grid [((0 : ℤ), (0 : ℤ)), (0, 100)]).2 ∧
    find_reference_line (fun _ => some ⟨Orientation.vertical, (0, 0), (0, 100)⟩)
        [((0 : ℤ), (0 : ℤ)), (0, 100)] 2 =
      some ⟨Orientation.vertical, (0, 0), (0, 100)⟩ := by
  have h2 : 2 ≤ ([((0 : ℤ), (0 : ℤ)), (0, 100)] : List (ℤ × ℤ)).length := by simp
  refine ⟨h2,
    ((C10_grid_failure_unreachable [((0 : ℤ), (0 : ℤ)), (0, 100)]
      (fun _ => some ⟨Orientation.vertical, (0, 0), (0, 100)⟩) 2).1 h2).1,
    ((C10_grid_failure_unreachable [((0 : ℤ), (0 : ℤ)), (0, 100)]
      (fun _ => some ⟨Orientation.vertical, (0, 0), (0, 100)⟩) 2).1 h2).2, ?_⟩
  exact (C10_grid_failure_unreachable [((0 : ℤ), (0 : ℤ)), (0, 100)]
    (fun _ => some ⟨Orientation.vertical, (0, 0), (0, 100)⟩) 2).2 (le_refl 2) h2

/-! ### Claim C2: below min_icons everything goes through the fallback -/

theorem fallback_build_icon_none (map : List (Key × Key))
    (app_usages app_names : List Det) (uU nU : List Key) :
    ∀ r ∈ (fallback_build map app_usages app_names uU nU).1, r.app_icon = none := by
  induction map generalizing uU nU with
  | nil =>
    intro r hr
    cases hr
  | cons p rest ih =>
    intro r hr
    unfold fallback_build at hr
    rcases p with ⟨u, n⟩
    rcases hu : find_det app_usages u with - | ud
    · rw [hu] at hr
      exact ih uU nU r hr
    rcases hn : find_det app_names n with - | nd
    · rw [hu, hn] at hr
      exact ih uU nU r hr
    · rw [hu, hn] at hr
      rcases List.mem_cons.mp hr with rfl | hmem
      · rfl
      · exact ih (removeKey uU u) (removeKey nU n) r hmem

/-- C2: with fewer than `min_icons` icon centers `find_reference_line`
returns `None` (and `detect_grid` returns `(0, 0)` for fewer than 2
centers); in `match_app_name_and_usage`, with fewer icon detections than
`ref_line_min_icons`, no reference line is computed, no search line is
built — so no search-ray matching occurs — and every match record produced
has `app_icon = None` (the fallback path is the only producer). -/
theorem C2_insufficient_input_fallback (core : List (ℤ × ℤ) → Option RefLine)
    (centers : List (ℤ × ℤ)) (min_icons : ℕ) (dets : List Det)
    (hgt wid : ℚ) (cfg : Cfg) :
    (centers.length < min_icons → find_reference_line core centers min_icons = none) ∧
    (centers.length < 2 → detect_grid centers = (0, 0)) ∧
    ((filterP (fun d => d.label = cfg.app_icon_class) dets).length <
        cfg.ref_line_min_icons →
      (match_app_name_and_usage core dets hgt wid cfg).reference_line = none ∧
      (match_app_name_and_usage core dets hgt wid cfg).icon_search_lines = [] ∧
      ∀ r ∈ (match_app_name_and_usage core dets hgt wid cfg).matched_data,
        r.app_icon = none) := by
  refine ⟨fun h => ?_, fun h => ?_, fun h => ?_⟩
  · unfold find_reference_line
    rw [if_pos (Or.inr h)]
  · unfold detect_grid
    rw [if_pos h]
  · have hlt : ¬ cfg.ref_line_min_icons ≤
        (filterP (fun d => d.label = cfg.app_icon_class) dets).length :=
      not_le.mpr h
    have hrl : reference_line_of core dets cfg = none := by
      unfold reference_line_of
      rw [if_neg hlt]
    simp only [match_app_name_and_usage, hrl]
    refine ⟨trivial, trivial, ?_⟩
    intro r hr
    by_cases hc : True ∧
        filterP (fun d => d.label = cfg.app_name_class) dets ≠ [] ∧
        filterP (fun d => d.label = cfg.app_usage_class) dets ≠ []
    · rw [if_pos hc] at hr
      simp only [List.nil_append] at hr
      exact fallback_build_icon_none _ _ _ _ _ r hr
    · rw [if_neg hc] at hr
      simp at hr

/-- Default configuration values of layout_analysis.py lines 348-351,
369-371 and 386-388. -/
def default_cfg : Cfg :=
  ⟨"app_name", "app_usage", "app_icon", "id", 3, 5, 200, 120⟩

/-- Three detections, one per class, used by concrete instantiations. -/
def dets_one_each : List Det :=
  [⟨"app_name", 0, 0, 10, 10⟩, ⟨"app_usage", 30, 0, 10, 10⟩,
    ⟨"app_icon", 100, 100, 10, 10⟩]

theorem C2_insufficient_input_fallback_witness :
    ((filterP (fun d => d.label = default_cfg.app_icon_class)
        dets_one_each).length < default_cfg.ref_line_min_icons) ∧
    (match_app_name_and_usage (fun _ => none) dets_one_each 480 640
        default_cfg).reference_line = none ∧
    (match_app_name_and_usage (fun _ => none) dets_one_each 480 640
        default_cfg).icon_search_lines = [] := by
  have h : (filterP (fun d => d.label = default_cfg.app_icon_class)
      dets_one_each).length < default_cfg.ref_line_min_icons := by
    simp [filterP, default_cfg, dets_one_each]
  exact ⟨h,
    ((C2_insufficient_input_fallback (fun _ => none) [] 0
      dets_one_each 480 640 default_cfg).2.2 h).1,
    ((C2_insufficient_input_fallback (fun _ => none) [] 0
      dets_one_each 480 640 default_cfg).2.2 h).2.1⟩

/-! ### Claim C1: phase-1 reassignment and tie-breaking -/

/-- A concrete icon detection for the reassignment scenario. -/
def icon_a : Det := ⟨"app_icon", 0, 0, 10, 10⟩

/-- A concrete search ray for `icon_a`: horizontal from its center `(5,5)` to
`(395,5)`. -/
def line_a : RefLine := ⟨Orientation.vertical, (5, 5), (395, 5)⟩

/-- Usage box whose centroid `(50,35)` is at distance 30 from `line_a`. -/
def usage30 : Det := ⟨"app_usage", 45, 30, 10, 10⟩

/-- Usage box whose centroid `(50,25)` is at distance 20 from `line_a`. -/
def usage20 : Det := ⟨"app_usage", 45, 20, 10, 10⟩

/-- Usage box whose centroid `(50,55)` is at distance 50 from `line_a`. -/
def usage50 : Det := ⟨"app_usage", 45, 50, 10, 10⟩

/-- Usage box whose centroid `(150,35)` is also at distance 30 from
`line_a` — an exact tie with `usage30`. -/
def usage30b : Det := ⟨"app_usage", 145, 30, 10, 10⟩

set_option maxHeartbeats 2000000 in
/-- C1 (amended): each icon is claimed by at most one usage; a later usage
whose distance to an already-claimed icon's search ray is strictly smaller
displaces the current claimant (which is released), a later usage at a
strictly larger distance is rejected, and when the later usage's distance
equals the current claimant's distance the later usage displaces the earlier
claim (the earlier claim is not kept).  For three usage boxes at ray
distances 30, 20 and 50 from the same icon, processed in that order, the
icon ends up claimed by the usage at distance 20 and the other two usages
end up unclaimed.  Distances are squared throughout. -/
theorem C1_phase1_reassignment (u0 u1 i : Key) (d0 d1 : ℚ) :
    (d1 < d0 →
      apply_claim [(u0, i)] [(u0, d0)] u1 (some i) d1 = ([(u1, i)], [(u1, d1)])) ∧
    (d0 < d1 →
      apply_claim [(u0, i)] [(u0, d0)] u1 (some i) d1 = ([(u0, i)], [(u0, d0)])) ∧
    (d1 = d0 →
      apply_claim [(u0, i)] [(u0, d0)] u1 (some i) d1 = ([(u1, i)], [(u1, d1)])) ∧
    phase1_fold [(icon_a, line_a)] (sq_threshold 200) [usage30, usage20, usage50] =
      ([(detKey usage20, detKey icon_a)], [(detKey usage20, 20 ^ 2)]) ∧
    distance_to_segment_sq (get_centroid usage30) (ptZ line_a.start)
      (ptZ line_a.stop) = 30 ^ 2 ∧
    distance_to_segment_sq (get_centroid usage20) (ptZ line_a.start)
      (ptZ line_a.stop) = 20 ^ 2 ∧
    distance_to_segment_sq (get_centroid usage50) (ptZ line_a.start)
      (ptZ line_a.stop) = 50 ^ 2 := by
  have hex : ∀ dnew : ℚ,
      (∃ p ∈ [(u0, i)], p.2 = i ∧ dist_lt [(u0, d0)] p.1 dnew) ↔ d0 < dnew := by
    intro dnew
    simp [dist_lt, dict_get]
  refine ⟨fun h => ?_, fun h => ?_, fun h => ?_, ?_, ?_, ?_, ?_⟩
  · simp only [apply_claim]
    rw [if_neg (by rw [hex]; exact not_lt.mpr (le_of_lt h))]
    simp [filterP, dict_set]
  · simp only [apply_claim]
    rw [if_pos ((hex d1).mpr h)]
  · simp only [apply_claim]
    rw [if_neg (by rw [hex, h]; exact lt_irrefl d0)]
    simp [filterP, dict_set]
  · norm_num [phase1_fold, best_icon_p1, apply_claim, dist_lt, dict_get, dict_set,
      filterP, distance_to_segment_sq, dot, vsub, vadd, smul, normSq, npClip, ptZ,
      get_centroid, detKey, sq_threshold, icon_a, line_a, usage30, usage20, usage50]
  · norm_num [distance_to_segment_sq, dot, vsub, vadd, smul, normSq, npClip, ptZ,
      get_centroid, line_a, usage30]
  · norm_num [distance_to_segment_sq, dot, vsub, vadd, smul, normSq, npClip, ptZ,
      get_centroid, line_a, usage20]
  · norm_num [distance_to_segment_sq, dot, vsub, vadd, smul, normSq, npClip, ptZ,
      get_centroid, line_a, usage50]

theorem C1_phase1_reassignment_witness :
    ((3 : ℚ) < 7 ∧
      apply_claim [((1, 1, 1, 1), (9, 9, 9, 9))] [((1, 1, 1, 1), (7 : ℚ))]
        (2, 2, 2, 2) (some (9, 9, 9, 9)) 3 =
        ([((2, 2, 2, 2), (9, 9, 9, 9))], [((2, 2, 2, 2), (3 : ℚ))])) ∧
    ((7 : ℚ) < 9 ∧
      apply_claim [((1, 1, 1, 1), (9, 9, 9, 9))] [((1, 1, 1, 1), (7 : ℚ))]
        (2, 2, 2, 2) (some (9, 9, 9, 9)) 9 =
        ([((1, 1, 1, 1), (9, 9, 9, 9))], [((1, 1, 1, 1), (7 : ℚ))])) ∧
    ((7 : ℚ) = 7 ∧
      apply_claim [((1, 1, 1, 1), (9, 9, 9, 9))] [((1, 1, 1, 1), (7 : ℚ))]
        (2, 2, 2, 2) (some (9, 9, 9, 9)) 7 =
        ([((2, 2, 2, 2), (9, 9, 9, 9))], [((2, 2, 2, 2), (7 : ℚ))])) :=
  ⟨⟨by norm_num,
      (C1_phase1_reassignment (1, 1, 1, 1) (2, 2, 2, 2) (9, 9, 9, 9) 7 3).1
        (by norm_num)⟩,
    ⟨by norm_num,
      (C1_phase1_reassignment (1, 1, 1, 1) (2, 2, 2, 2) (9, 9, 9, 9) 7 9).2.1
        (by norm_num)⟩,
    ⟨rfl,
      (C1_phase1_reassignment (1, 1, 1, 1) (2, 2, 2, 2) (9, 9, 9, 9) 7 7).2.2.1
        rfl⟩⟩

set_option maxHeartbeats 2000000 in
/-- C1 counterexample: two usages at exactly equal ray distance 30 from the
same icon, processed in order; the claim says equal distances keep the
earlier claim, but the code lets the later usage displace the earlier one:
`usage30b`, the second one, ends up holding the claim. -/
theorem C1_counterexample :
    phase1_fold [(icon_a, line_a)] (sq_threshold 200) [usage30, usage30b] =
      ([(detKey usage30b, detKey icon_a)], [(detKey usage30b, 30 ^ 2)]) ∧
    distance_to_segment_sq (get_centroid usage30) (ptZ line_a.start)
        (ptZ line_a.stop) =
      distance_to_segment_sq (get_centroid usage30b) (ptZ line_a.start)
        (ptZ line_a.stop) ∧
    detKey usage30b ≠ detKey usage30 := by
  refine ⟨?_, ?_, ?_⟩
  · norm_num [phase1_fold, best_icon_p1, apply_claim, dist_lt, dict_get, dict_set,
      filterP, distance_to_segment_sq, dot, vsub, vadd, smul, normSq, npClip, ptZ,
      get_centroid, detKey, sq_threshold, icon_a, line_a, usage30, usage30b]
  · norm_num [distance_to_segment_sq, dot, vsub, vadd, smul, normSq, npClip, ptZ,
      get_centroid, line_a, usage30, usage30b]
  · norm_num [detKey, usage30, usage30b]

/-! ### Claim C7: search-ray endpoints and the image boundary -/

theorem pyInt_npClip_bounds (v bound : ℚ) (hb : 0 ≤ bound) :
    0 ≤ pyInt (npClip v 0 bound) ∧ (pyInt (npClip v 0 bound) : ℚ) ≤ bound := by
  have h0 : 0 ≤ npClip v 0 bound := le_min hb (le_max_right v 0)
  have h1 : npClip v 0 bound ≤ bound := min_le_left _ _
  unfold pyInt
  rw [if_pos h0]
  constructor
  · exact Int.le_floor.mpr (by exact_mod_cast h0)
  · exact le_trans (Int.floor_le _) h1

/-- C7 (amended): for every anchor center inside the image and every set of
intervening boxes, the endpoint of the truncated search ray returned by
`layout_analysis.create_search_line` lies within
`[0, image_width] × [0, image_height]` (the final endpoint is clipped to the
image, lines 308-310); the `detection/utils` variant lacks the clip and can
return an endpoint outside the image when an intervening box crosses the
boundary — see the counterexample. -/
theorem C7_ray_endpoint_in_bounds (rl : RefLine) (center : Pt) (boxes : List BBox)
    (image_width image_height tol : ℚ) (r : RefLine)
    (hcx0 : 0 ≤ center.1) (hcxW : center.1 ≤ image_width)
    (hcy0 : 0 ≤ center.2) (hcyH : center.2 ≤ image_height)
    (hr : create_search_line (some rl) center boxes image_width image_height tol =
      some r) :
    0 ≤ r.stop.1 ∧ (r.stop.1 : ℚ) ≤ image_width ∧
    0 ≤ r.stop.2 ∧ (r.stop.2 : ℚ) ≤ image_height := by
  have hW : 0 ≤ image_width := le_trans hcx0 hcxW
  have hH : 0 ≤ image_height := le_trans hcy0 hcyH
  simp only [create_search_line] at hr
  rcases rl with ⟨ro, rs, re⟩
  cases ro with
  | vertical =>
    simp only [create_search_line_from_dir] at hr
    rw [if_neg (by norm_num)] at hr
    cases hr
    exact ⟨(pyInt_npClip_bounds _ _ hW).1, (pyInt_npClip_bounds _ _ hW).2,
      (pyInt_npClip_bounds _ _ hH).1, (pyInt_npClip_bounds _ _ hH).2⟩
  | horizontal =>
    simp only [create_search_line_from_dir] at hr
    rw [if_neg (by norm_num)] at hr
    cases hr
    exact ⟨(pyInt_npClip_bounds _ _ hW).1, (pyInt_npClip_bounds _ _ hW).2,
      (pyInt_npClip_bounds _ _ hH).1, (pyInt_npClip_bounds _ _ hH).2⟩

set_option maxHeartbeats 2000000 in
theorem C7_ray_endpoint_in_bounds_witness :
    create_search_line (some ⟨Orientation.vertical, (5, 0), (5, 480)⟩)
        ((5 : ℚ), 5) [] 640 480 5 =
      some ⟨Orientation.vertical, (5, 5), (640, 5)⟩ ∧
    (0 : ℚ) ≤ 5 ∧ (5 : ℚ) ≤ 640 ∧ (0 : ℚ) ≤ 5 ∧ (5 : ℚ) ≤ 480 ∧
    0 ≤ (⟨Orientation.vertical, (5, 5), (640, 5)⟩ : RefLine).stop.1 ∧
    ((⟨Orientation.vertical, (5, 5), (640, 5)⟩ : RefLine).stop.1 : ℚ) ≤ 640 ∧
    0 ≤ (⟨Orientation.vertical, (5, 5), (640, 5)⟩ : RefLine).stop.2 ∧
    ((⟨Orientation.vertical, (5, 5), (640, 5)⟩ : RefLine).stop.2 : ℚ) ≤ 480 := by
  have hcalc : create_search_line (some ⟨Orientation.vertical, (5, 0), (5, 480)⟩)
      ((5 : ℚ), 5) [] 640 480 5 =
      some ⟨Orientation.vertical, (5, 5), (640, 5)⟩ := by
    norm_num [create_search_line, create_search_line_from_dir, t_max_calc,
      optMinVal, own_bbox, findFirst, min_intersect, min_intersect_step,
      box_intersect_t, slab_axis, npClip, pyInt]
  have hbounds := C7_ray_endpoint_in_bounds ⟨Orientation.vertical, (5, 0), (5, 480)⟩
    ((5 : ℚ), 5) [] 640 480 5 ⟨Orientation.vertical, (5, 5), (640, 5)⟩
    (by norm_num) (by norm_num) (by norm_num) (by norm_num) hcalc
  exact ⟨hcalc, by norm_num, by norm_num, by norm_num, by norm_num,
    hbounds.1, hbounds.2.1, hbounds.2.2.1, hbounds.2.2.2⟩

set_option maxHeartbeats 2000000 in
/-- C7 counterexample: the `detection/utils` variant of `create_search_line`,
with a horizontal reference line (ray direction `(0, 1)`), an anchor center
`(50, 95)` inside the 100x100 image, and one intervening box `[55,75]x[90,110]`
that sticks out below the image, returns endpoint `(50, 110)` — outside
`[0, 100] x [0, 100]`. -/
theorem C7_counterexample :
    utils_create_search_line Orientation.horizontal (0, 50) (100, 50)
        ((50 : ℚ), 95) [⟨55, 90, 20, 20⟩] 100 100 5 =
      ⟨Orientation.horizontal, (50, 95), (50, 110)⟩ ∧
    (0 : ℚ) ≤ 50 ∧ (50 : ℚ) ≤ 100 ∧ (0 : ℚ) ≤ 95 ∧ (95 : ℚ) ≤ 100 ∧
    ¬ (((110 : ℤ) : ℚ) ≤ 100) := by
  refine ⟨?_, by norm_num, by norm_num, by norm_num, by norm_num, by norm_num⟩
  norm_num [utils_create_search_line, utils_edge_checks, ltOptInf, pyInt]

/-! ### Claim C9: every match record carries a usage detection -/

theorem phase1_build_usage_some (ums : List (Key × Key))
    (app_usages app_icons : List Det) (uU iU : List Key) :
    ∀ r ∈ (phase1_build ums app_usages app_icons uU iU).1, r.app_usage ≠ none := by
  induction ums generalizing uU iU with
  | nil =>
    intro r hr
    cases hr
  | cons p rest ih =>
    intro r hr
    unfold phase1_build at hr
    rcases p with ⟨u, i⟩
    rcases hu : find_det app_usages u with - | ud
    · rw [hu] at hr
      exact ih uU iU r hr
    rcases hi : find_det app_icons i with - | idet
    · rw [hu, hi] at hr
      exact ih uU iU r hr
    · rw [hu, hi] at hr
      rcases List.mem_cons.mp hr with rfl | hmem
      · intro hc
        cases hc
      · exact ih (removeKey uU u) (removeKey iU i) r hmem

theorem fallback_build_usage_some (map : List (Key × Key))
    (app_usages app_names : List Det) (uU nU : List Key) :
    ∀ r ∈ (fallback_build map app_usages app_names uU nU).1, r.app_usage ≠ none := by
  induction map generalizing uU nU with
  | nil =>
    intro r hr
    cases hr
  | cons p rest ih =>
    intro r hr
    unfold fallback_build at hr
    rcases p with ⟨u, n⟩
    rcases hu : find_det app_usages u with - | ud
    · rw [hu] at hr
      exact ih uU nU r hr
    rcases hn : find_det app_names n with - | nd
    · rw [hu, hn] at hr
      exact ih uU nU r hr
    · rw [hu, hn] at hr
      rcases List.mem_cons.mp hr with rfl | hmem
      · intro hc
        cases hc
      · exact ih (removeKey uU u) (removeKey nU n) r hmem

theorem attach_name_usage_pres (recs : List MatchRecord) (nd : Det) (ikey : Key)
    (h : ∀ r0 ∈ recs, r0.app_usage ≠ none) :
    ∀ r ∈ (attach_name recs nd ikey).1, r.app_usage ≠ none := by
  induction recs with
  | nil =>
    intro r hr
    cases hr
  | cons r0 rest ih =>
    intro r hr
    have h0 := h r0 (List.mem_cons_self _ _)
    have hrest : ∀ r1 ∈ rest, r1.app_usage ≠ none :=
      fun r1 h1 => h r1 (List.mem_cons_of_mem _ h1)
    unfold attach_name at hr
    rcases hic : r0.app_icon with - | idet
    · rw [hic] at hr
      rcases List.mem_cons.mp hr with rfl | hmem
      · exact h0
      · exact ih hrest r hmem
    · rw [hic] at hr
      dsimp only at hr
      by_cases hk : detKey idet = ikey
      · rw [if_pos hk] at hr
        rcases hnm : r0.app_name with - | nd0
        · rw [hnm] at hr
          rcases List.mem_cons.mp hr with rfl | hmem
          · exact h0
          · exact hrest r hmem
        · rw [hnm] at hr
          rcases List.mem_cons.mp hr with rfl | hmem
          · exact h0
          · exact ih hrest r hmem
      · rw [if_neg hk] at hr
        rcases List.mem_cons.mp hr with rfl | hmem
        · exact h0
        · exact ih hrest r hmem

theorem phase2_attach_usage_pres (nms : List (Key × Key)) (app_names : List Det)
    (recs : List MatchRecord) (nU : List Key)
    (h : ∀ r0 ∈ recs, r0.app_usage ≠ none) :
    ∀ r ∈ (phase2_attach nms app_names recs nU).1, r.app_usage ≠ none := by
  induction nms generalizing recs nU with
  | nil =>
    intro r hr
    exact h r hr
  | cons p rest ih =>
    intro r hr
    unfold phase2_attach at hr
    rcases p with ⟨n, i⟩
    rcases hn : find_det app_names n with - | nd
    · rw [hn] at hr
      exact ih recs nU h r hr
    · rw [hn] at hr
      exact ih (attach_name recs nd i).1 _
        (attach_name_usage_pres recs nd i h) r hr

theorem ray_phase_usage_some (sl : List (Det × RefLine)) (cfg : Cfg)
    (app_names app_usages app_icons : List Det) (nU uU iU : List Key) :
    ∀ r ∈ (ray_phase sl cfg app_names app_usages app_icons nU uU iU).1,
      r.app_usage ≠ none := by
  unfold ray_phase
  exact phase2_attach_usage_pres _ _ _ _
    (phase1_build_usage_some _ app_usages app_icons uU iU)

/-- C9: every match record produced by `match_app_name_and_usage`, on both
the search-ray path and the fallback path, has a non-None `app_usage` field:
records are created only for a matched usage box. -/
theorem C9_every_record_has_usage (core : List (ℤ × ℤ) → Option RefLine)
    (dets : List Det) (hgt wid : ℚ) (cfg : Cfg) :
    ∀ r ∈ (match_app_name_and_usage core dets hgt wid cfg).matched_data,
      r.app_usage ≠ none := by
  intro r hr
  simp only [match_app_name_and_usage] at hr
  rcases hrl : reference_line_of core dets cfg with - | rl
  · simp only [hrl] at hr
    by_cases hc : True ∧
        filterP (fun d => d.label = cfg.app_name_class) dets ≠ [] ∧
        filterP (fun d => d.label = cfg.app_usage_class) dets ≠ []
    · rw [if_pos hc] at hr
      simp only [List.nil_append] at hr
      exact fallback_build_usage_some _ _ _ _ _ r hr
    · rw [if_neg hc] at hr
      simp at hr
  · simp only [hrl] at hr
    by_cases hc : build_search_lines rl
          (filterP (fun d => d.label = cfg.app_icon_class) dets) wid hgt
          cfg.search_line_tolerance = [] ∧
        filterP (fun d => d.label = cfg.app_name_class) dets ≠ [] ∧
        filterP (fun d => d.label = cfg.app_usage_class) dets ≠ []
    · rw [if_pos hc] at hr
      simp only [List.mem_append] at hr
      rcases hr with hr | hr
      · exact ray_phase_usage_some _ _ _ _ _ _ _ _ r hr
      · exact fallback_build_usage_some _ _ _ _ _ r hr
    · rw [if_neg hc] at hr
      exact ray_phase_usage_some _ _ _ _ _ _ _ _ r hr

set_option maxHeartbeats 2000000 in
theorem C9_every_record_has_usage_witness :
    ((⟨some ⟨"app_usage", 30, 0, 10, 10⟩, none, some ⟨"app_name", 0, 0, 10, 10⟩⟩ :
        MatchRecord) ∈
      (match_app_name_and_usage (fun _ => none)
        [⟨"app_name", 0, 0, 10, 10⟩, ⟨"app_usage", 30, 0, 10, 10⟩] 480 640
        default_cfg).matched_data) ∧
    (⟨some ⟨"app_usage", 30, 0, 10, 10⟩, none, some ⟨"app_name", 0, 0, 10, 10⟩⟩ :
        MatchRecord).app_usage ≠ none := by
  have hmem : (⟨some ⟨"app_usage", 30, 0, 10, 10⟩, none,
      some ⟨"app_name", 0, 0, 10, 10⟩⟩ : MatchRecord) ∈
      (match_app_name_and_usage (fun _ => none)
        [⟨"app_name", 0, 0, 10, 10⟩, ⟨"app_usage", 30, 0, 10, 10⟩] 480 640
        default_cfg).matched_data := by
    simp [match_app_name_and_usage, reference_line_of, find_reference_line,
      default_cfg, filterP, build_search_lines, ray_phase, phase1_fold,
      phase1_build, phase2_fold, phase2_attach, fallback_fold, fallback_build,
      best_name_fb, best_name_candidate, dist_lt, dict_get, dict_set, find_det,
      findFirst, removeKey, detKey, get_centroid, normSq, vsub, icon_center,
      sq_threshold]
  exact ⟨hmem,
    C9_every_record_has_usage (fun _ => none)
      [⟨"app_name", 0, 0, 10, 10⟩, ⟨"app_usage", 30, 0, 10, 10⟩] 480 640
      default_cfg _ hmem⟩

/-! ### Claim C8: association-list invariants of the claim maps -/

theorem mem_map_fst_dict_set {V : Type} (m : List (Key × V)) (k a : Key) (v : V)
    (h : a ∈ (dict_set m k v).map Prod.fst) : a ∈ m.map Prod.fst ∨ a = k := by
  induction m with
  | nil =>
    unfold dict_set at h
    simp at h
    exact Or.inr h
  | cons p rest ih =>
    unfold dict_set at h
    by_cases hp : p.1 = k
    · rw [if_pos hp] at h
      simp only [List.map_cons, List.mem_cons] at h
      rcases h with rfl | h
      · exact Or.inr rfl
      · exact Or.inl (by simp only [List.map_cons, List.mem_cons]; exact Or.inr h)
    · rw [if_neg hp] at h
      simp only [List.map_cons, List.mem_cons] at h
      rcases h with rfl | h
      · exact Or.inl (by simp)
      · rcases ih h with h2 | h2
        · exact Or.inl (by simp only [List.map_cons, List.mem_cons]; exact Or.inr h2)
        · exact Or.inr h2

theorem mem_map_snd_dict_set {V : Type} [DecidableEq V] (m : List (Key × V))
    (k : Key) (v b : V) (h : b ∈ (dict_set m k v).map Prod.snd) :
    b ∈ m.map Prod.snd ∨ b = v := by
  induction m with
  | nil =>
    unfold dict_set at h
    simp at h
    exact Or.inr h
  | cons p rest ih =>
    unfold dict_set at h
    by_cases hp : p.1 = k
    · rw [if_pos hp] at h
      simp only [List.map_cons, List.mem_cons] at h
      rcases h with rfl | h
      · exact Or.inr rfl
      · exact Or.inl (by simp only [List.map_cons, List.mem_cons]; exact Or.inr h)
    · rw [if_neg hp] at h
      simp only [List.map_cons, List.mem_cons] at h
      rcases h with rfl | h
      · exact Or.inl (by simp)
      · rcases ih h with h2 | h2
        · exact Or.inl (by simp only [List.map_cons, List.mem_cons]; exact Or.inr h2)
        · exact Or.inr h2

theorem dict_set_fst_nodup {V : Type} (m : List (Key × V)) (k : Key) (v : V)
    (h : (m.map Prod.fst).Nodup) : ((dict_set m k v).map Prod.fst).Nodup := by
  induction m with
  | nil =>
    unfold dict_set
    simp
  | cons p rest ih =>
    simp only [List.map_cons, List.nodup_cons] at h
    unfold dict_set
    by_cases hp : p.1 = k
    · rw [if_pos hp]
      simp only [List.map_cons, List.nodup_cons]
      exact ⟨by rw [← hp]; exact h.1, h.2⟩
    · rw [if_neg hp]
      simp only [List.map_cons, List.nodup_cons]
      refine ⟨fun hc => ?_, ih h.2⟩
      rcases mem_map_fst_dict_set rest k p.1 v hc with h2 | h2
      · exact h.1 h2
      · exact hp h2

theorem dict_set_snd_nodup {V : Type} [DecidableEq V] (m : List (Key × V))
    (k : Key) (v : V) (h : (m.map Prod.snd).Nodup) (hv : v ∉ m.map Prod.snd) :
    ((dict_set m k v).map Prod.snd).Nodup := by
  induction m with
  | nil =>
    unfold dict_set
    simp
  | cons p rest ih =>
    simp only [List.map_cons, List.nodup_cons] at h
    simp only [List.map_cons, List.mem_cons] at hv
    push_neg at hv
    unfold dict_set
    by_cases hp : p.1 = k
    · rw [if_pos hp]
      simp only [List.map_cons, List.nodup_cons]
      exact ⟨fun hc => hv.2 hc, h.2⟩
    · rw [if_neg hp]
      simp only [List.map_cons, List.nodup_cons]
      refine ⟨fun hc => ?_, ih h.2 hv.2⟩
      rcases mem_map_snd_dict_set rest k v p.2 hc with h2 | h2
      · exact h.1 h2
      · exact hv.1 h2.symm

theorem filterP_map_sublist {α β : Type} (p : α → Prop) [DecidablePred p]
    (f : α → β) (l : List α) : ((filterP p l).map f).Sublist (l.map f) :=
  (filterP_sublist p l).map f

theorem snd_filterP_notin (ikey : Key) (m : List (Key × Key)) :
    ikey ∉ (filterP (fun p => ¬ p.2 = ikey) m).map Prod.snd := by
  intro hc
  rcases List.mem_map.mp hc with ⟨q, hq, hq2⟩
  exact (mem_filterP.mp hq).2 hq2

/-- Nodup preservation for the shared pop-then-insert update
`dict_set (filterP (· ≠ ikey on snd) ms) ukey ikey` used by `apply_claim` and
the fallback fold. -/
theorem claim_update_nodup (ms : List (Key × Key)) (ukey ikey : Key)
    (h1 : (ms.map Prod.fst).Nodup) (h2 : (ms.map Prod.snd).Nodup) :
    (((dict_set (filterP (fun p => ¬ p.2 = ikey) ms) ukey ikey).map Prod.fst).Nodup ∧
    ((dict_set (filterP (fun p => ¬ p.2 = ikey) ms) ukey ikey).map Prod.snd).Nodup) := by
  constructor
  · exact dict_set_fst_nodup _ _ _
      ((filterP_map_sublist _ Prod.fst ms).nodup h1)
  · exact dict_set_snd_nodup _ _ _
      ((filterP_map_sublist _ Prod.snd ms).nodup h2)
      (snd_filterP_notin ikey ms)

theorem apply_claim_nodup (ms : List (Key × Key)) (ds : List (Key × ℚ))
    (ukey : Key) (best : Option Key) (minD : ℚ)
    (h1 : (ms.map Prod.fst).Nodup) (h2 : (ms.map Prod.snd).Nodup) :
    (((apply_claim ms ds ukey best minD).1.map Prod.fst).Nodup ∧
    ((apply_claim ms ds ukey best minD).1.map Prod.snd).Nodup) := by
  rcases best with - | ikey
  · exact ⟨h1, h2⟩
  · simp only [apply_claim]
    by_cases hc : ∃ p ∈ ms, p.2 = ikey ∧ dist_lt ds p.1 minD
    · rw [if_pos hc]
      exact ⟨h1, h2⟩
    · rw [if_neg hc]
      exact claim_update_nodup ms ukey ikey h1 h2

theorem foldl_apply_claim_nodup (f : Det → Option Key × ℚ) (items : List Det) :
    ∀ st : List (Key × Key) × List (Key × ℚ),
      (st.1.map Prod.fst).Nodup → (st.1.map Prod.snd).Nodup →
      (((items.foldl
          (fun st u => apply_claim st.1 st.2 (detKey u) (f u).1 (f u).2) st).1.map
            Prod.fst).Nodup ∧
      ((items.foldl
          (fun st u => apply_claim st.1 st.2 (detKey u) (f u).1 (f u).2) st).1.map
            Prod.snd).Nodup) := by
  induction items with
  | nil => exact fun st h1 h2 => ⟨h1, h2⟩
  | cons u rest ih =>
    intro st h1 h2
    simp only [List.foldl_cons]
    have h := apply_claim_nodup st.1 st.2 (detKey u) (f u).1 (f u).2 h1 h2
    exact ih _ h.1 h.2

theorem phase1_fold_nodup (lines : List (Det × RefLine)) (initSq : ℚ)
    (app_usages : List Det) :
    (((phase1_fold lines initSq app_usages).1.map Prod.fst).Nodup ∧
    ((phase1_fold lines initSq app_usages).1.map Prod.snd).Nodup) :=
  foldl_apply_claim_nodup (fun u => best_icon_p1 lines initSq (get_centroid u))
    app_usages ([], []) (by simp) (by simp)

theorem phase2_fold_nodup (lines : List (Det × RefLine)) (icons_matched : List Key)
    (initSq : ℚ) (app_names : List Det) :
    (((phase2_fold lines icons_matched initSq app_names).1.map Prod.fst).Nodup ∧
    ((phase2_fold lines icons_matched initSq app_names).1.map Prod.snd).Nodup) :=
  foldl_apply_claim_nodup
    (fun n => best_icon_p2 lines icons_matched initSq (get_centroid n))
    app_names ([], []) (by simp) (by simp)

theorem fallback_fold_nodup (app_names app_usages : List Det) :
    (((fallback_fold app_names app_usages).1.map Prod.fst).Nodup ∧
    ((fallback_fold app_names app_usages).1.map Prod.snd).Nodup) := by
  suffices h : ∀ (us : List Det) (st : List (Key × Key) × List (Key × ℚ)),
      (st.1.map Prod.fst).Nodup → (st.1.map Prod.snd).Nodup →
      (((us.foldl
          (fun st u =>
            match best_name_fb app_names st.1 st.2 (get_centroid u) with
            | none => st
            | some (nkey, dSq) =>
              (dict_set (filterP (fun p => ¬ p.2 = nkey) st.1) (detKey u) nkey,
                dict_set (filterP (fun p => ¬ ∃ q ∈ st.1, q.2 = nkey ∧ q.1 = p.1) st.2)
                  (detKey u) dSq)) st).1.map Prod.fst).Nodup ∧
      ((us.foldl
          (fun st u =>
            match best_name_fb app_names st.1 st.2 (get_centroid u) with
            | none => st
            | some (nkey, dSq) =>
              (dict_set (filterP (fun p => ¬ p.2 = nkey) st.1) (detKey u) nkey,
                dict_set (filterP (fun p => ¬ ∃ q ∈ st.1, q.2 = nkey ∧ q.1 = p.1) st.2)
                  (detKey u) dSq)) st).1.map Prod.snd).Nodup) by
    exact h app_usages ([], []) (by simp) (by simp)
  intro us
  induction us with
  | nil => exact fun st h1 h2 => ⟨h1, h2⟩
  | cons u rest ih =>
    intro st h1 h2
    simp only [List.foldl_cons]
    rcases hb : best_name_fb app_names st.1 st.2 (get_centroid u) with - | p
    · exact ih st h1 h2
    · rcases p with ⟨nkey, dSq⟩
      have h := claim_update_nodup st.1 (detKey u) nkey h1 h2
      exact ih _ h.1 h.2

/-! ### Claim C8: record shape lemmas -/

/-- Key of an optional detection; the default is never consulted on records
whose field is populated. -/
def okey (o : Option Det) : Key :=
  match o with
  | some d => detKey d
  | none => (0, 0, 0, 0)

/-- Usage key of a record. -/
def rec_ukey (r : MatchRecord) : Key := okey r.app_usage

/-- Icon key of a record. -/
def rec_ikey (r : MatchRecord) : Key := okey r.app_icon

/-- Name key of a record. -/
def rec_nkey (r : MatchRecord) : Key := okey r.app_name

/-- The box keys referenced by a match record. -/
def recordKeys (r : MatchRecord) : List Key :=
  (match r.app_usage with | some d => [detKey d] | none => []) ++
  (match r.app_icon with | some d => [detKey d] | none => []) ++
  (match r.app_name with | some d => [detKey d] | none => [])

theorem phase1_build_pairs (ums : List (Key × Key)) (us is : List Det)
    (uU iU : List Key) :
    ((phase1_build ums us is uU iU).1.map fun r => (rec_ukey r, rec_ikey r)).Sublist
      ums := by
  induction ums generalizing uU iU with
  | nil => simp [phase1_build]
  | cons p rest ih =>
    unfold phase1_build
    rcases p with ⟨u, i⟩
    rcases hu : find_det us u with - | ud
    · exact (ih uU iU).cons (u, i)
    rcases hi : find_det is i with - | idet
    · exact (ih uU iU).cons (u, i)
    · have hud : detKey ud = u := (findFirst_eq_some hu).2
      have hid : detKey idet = i := (findFirst_eq_some hi).2
      simp only [List.map_cons]
      have hhead : (rec_ukey ⟨some ud, some idet, none⟩,
          rec_ikey ⟨some ud, some idet, none⟩) = (u, i) := by
        simp [rec_ukey, rec_ikey, okey, hud, hid]
      rw [hhead]
      exact (ih (removeKey uU u) (removeKey iU i)).cons₂ (u, i)

theorem phase1_build_mem (ums : List (Key × Key)) (us is : List Det)
    (uU iU : List Key) :
    ∀ r ∈ (phase1_build ums us is uU iU).1,
      (∃ ud, r.app_usage = some ud ∧ ud ∈ us) ∧
      (∃ idet, r.app_icon = some idet ∧ idet ∈ is) ∧ r.app_name = none := by
  induction ums generalizing uU iU with
  | nil =>
    intro r hr
    cases hr
  | cons p rest ih =>
    intro r hr
    unfold phase1_build at hr
    rcases p with ⟨u, i⟩
    rcases hu : find_det us u with - | ud
    · rw [hu] at hr
      exact ih uU iU r hr
    rcases hi : find_det is i with - | idet
    · rw [hu, hi] at hr
      exact ih uU iU r hr
    · rw [hu, hi] at hr
      rcases List.mem_cons.mp hr with rfl | hmem
      · exact ⟨⟨ud, rfl, (findFirst_eq_some hu).1⟩,
          ⟨idet, rfl, (findFirst_eq_some hi).1⟩, rfl⟩
      · exact ih (removeKey uU u) (removeKey iU i) r hmem

theorem fallback_build_pairs (map : List (Key × Key)) (us ns : List Det)
    (uU nU : List Key) :
    ((fallback_build map us ns uU nU).1.map fun r => (rec_ukey r, rec_nkey r)).Sublist
      map := by
  induction map generalizing uU nU with
  | nil => simp [fallback_build]
  | cons p rest ih =>
    unfold fallback_build
    rcases p with ⟨u, n⟩
    rcases hu : find_det us u with - | ud
    · exact (ih uU nU).cons (u, n)
    rcases hn : find_det ns n with - | nd
    · exact (ih uU nU).cons (u, n)
    · have hud : detKey ud = u := (findFirst_eq_some hu).2
      have hnd : detKey nd = n := (findFirst_eq_some hn).2
      simp only [List.map_cons]
      have hhead : (rec_ukey ⟨some ud, none, some nd⟩,
          rec_nkey ⟨some ud, none, some nd⟩) = (u, n) := by
        simp [rec_ukey, rec_nkey, okey, hud, hnd]
      rw [hhead]
      exact (ih (removeKey uU u) (removeKey nU n)).cons₂ (u, n)

theorem fallback_build_mem (map : List (Key × Key)) (us ns : List Det)
    (uU nU : List Key) :
    ∀ r ∈ (fallback_build map us ns uU nU).1,
      (∃ ud, r.app_usage = some ud ∧ ud ∈ us) ∧ r.app_icon = none ∧
      (∃ nd, r.app_name = some nd ∧ nd ∈ ns) := by
  induction map generalizing uU nU with
  | nil =>
    intro r hr
    cases hr
  | cons p rest ih =>
    intro r hr
    unfold fallback_build at hr
    rcases p with ⟨u, n⟩
    rcases hu : find_det us u with - | ud
    · rw [hu] at hr
      exact ih uU nU r hr
    rcases hn : find_det ns n with - | nd
    · rw [hu, hn] at hr
      exact ih uU nU r hr
    · rw [hu, hn] at hr
      rcases List.mem_cons.mp hr with rfl | hmem
      · exact ⟨⟨ud, rfl, (findFirst_eq_some hu).1⟩, rfl,
          ⟨nd, rfl, (findFirst_eq_some hn).1⟩⟩
      · exact ih (removeKey uU u) (removeKey nU n) r hmem

theorem attach_name_mem (recs : List MatchRecord) (nd : Det) (ikey : Key) :
    ∀ r ∈ (attach_name recs nd ikey).1,
      r ∈ recs ∨ ∃ r0 ∈ recs, r0.app_name = none ∧ rec_ikey r0 = ikey ∧
        r = { r0 with app_name := some nd } := by
  induction recs with
  | nil =>
    intro r hr
    cases hr
  | cons r0 rest ih =>
    intro r hr
    unfold attach_name at hr
    rcases hic : r0.app_icon with - | idet
    · rw [hic] at hr
      rcases List.mem_cons.mp hr with rfl | hmem
      · exact Or.inl (List.mem_cons_self _ _)
      · rcases ih r hmem with h | ⟨r1, hm, hn, hk, he⟩
        · exact Or.inl (List.mem_cons_of_mem _ h)
        · exact Or.inr ⟨r1, List.mem_cons_of_mem _ hm, hn, hk, he⟩
    · rw [hic] at hr
      dsimp only at hr
      by_cases hk : detKey idet = ikey
      · rw [if_pos hk] at hr
        rcases hnm : r0.app_name with - | nd0
        · rw [hnm] at hr
          rcases List.mem_cons.mp hr with rfl | hmem
          · refine Or.inr ⟨r0, List.mem_cons_self _ _, hnm, ?_, ?_⟩
            · simp [rec_ikey, okey, hic, hk]
            · rw [hic]
          · exact Or.inl (List.mem_cons_of_mem _ hmem)
        · rw [hnm] at hr
          rcases List.mem_cons.mp hr with rfl | hmem
          · exact Or.inl (List.mem_cons_self _ _)
          · rcases ih r hmem with h | ⟨r1, hm, hn, hk2, he⟩
            · exact Or.inl (List.mem_cons_of_mem _ h)
            · exact Or.inr ⟨r1, List.mem_cons_of_mem _ hm, hn, hk2, he⟩
      · rw [if_neg hk] at hr
        rcases List.mem_cons.mp hr with rfl | hmem
        · exact Or.inl (List.mem_cons_self _ _)
        · rcases ih r hmem with h | ⟨r1, hm, hn, hk2, he⟩
          · exact Or.inl (List.mem_cons_of_mem _ h)
          · exact Or.inr ⟨r1, List.mem_cons_of_mem _ hm, hn, hk2, he⟩

theorem attach_name_maps (recs : List MatchRecord) (nd : Det) (ikey : Key) :
    ((attach_name recs nd ikey).1.map rec_ukey = recs.map rec_ukey) ∧
    ((attach_name recs nd ikey).1.map rec_ikey = recs.map rec_ikey) := by
  induction recs with
  | nil => exact ⟨rfl, rfl⟩
  | cons r0 rest ih =>
    unfold attach_name
    rcases hic : r0.app_icon with - | idet
    · simp only [List.map_cons]
      exact ⟨by rw [ih.1], by rw [ih.2]⟩
    · dsimp only
      by_cases hk : detKey idet = ikey
      · rw [if_pos hk]
        rcases hnm : r0.app_name with - | nd0
        · simp only [List.map_cons]
          constructor
          · have hru : rec_ukey ⟨r0.app_usage, some idet, some nd⟩ = rec_ukey r0 := rfl
            rw [hru]
          · have hri : rec_ikey ⟨r0.app_usage, some idet, some nd⟩ = rec_ikey r0 := by
              simp [rec_ikey, okey, hic]
            rw [hri]
        · simp only [List.map_cons]
          exact ⟨by rw [ih.1], by rw [ih.2]⟩
      · rw [if_neg hk]
        simp only [List.map_cons]
        exact ⟨by rw [ih.1], by rw [ih.2]⟩

theorem phase2_attach_maps (nms : List (Key × Key)) (names : List Det)
    (recs : List MatchRecord) (nU : List Key) :
    ((phase2_attach nms names recs nU).1.map rec_ukey = recs.map rec_ukey) ∧
    ((phase2_attach nms names recs nU).1.map rec_ikey = recs.map rec_ikey) := by
  induction nms generalizing recs nU with
  | nil => exact ⟨rfl, rfl⟩
  | cons p rest ih =>
    unfold phase2_attach
    rcases p with ⟨n, i⟩
    rcases hn : find_det names n with - | nd
    · exact ih recs nU
    · have h1 := ih (attach_name recs nd i).1 (if (attach_name recs nd i).2
        then removeKey nU n else nU)
      have h2 := attach_name_maps recs nd i
      exact ⟨h1.1.trans h2.1, h1.2.trans h2.2⟩

theorem phase2_attach_mem (nms : List (Key × Key)) (names : List Det)
    (recs : List MatchRecord) (nU : List Key) :
    ∀ r ∈ (phase2_attach nms names recs nU).1,
      ∃ r0 ∈ recs, r.app_usage = r0.app_usage ∧ r.app_icon = r0.app_icon := by
  induction nms generalizing recs nU with
  | nil =>
    intro r hr
    exact ⟨r, hr, rfl, rfl⟩
  | cons p rest ih =>
    intro r hr
    unfold phase2_attach at hr
    rcases p with ⟨n, i⟩
    rcases hn : find_det names n with - | nd
    · rw [hn] at hr
      exact ih recs nU r hr
    · rw [hn] at hr
      rcases ih _ _ r hr with ⟨r1, hm1, hu1, hi1⟩
      rcases attach_name_mem recs nd i r1 hm1 with h | ⟨r2, hm2, -, -, he⟩
      · exact ⟨r1, h, hu1, hi1⟩
      · refine ⟨r2, hm2, ?_, ?_⟩
        · rw [hu1, he]
        · rw [hi1, he]

theorem phase2_attach_name_origin (targetQ : Key × Key → Prop)
    (names : List Det) (nms : List (Key × Key)) :
    ∀ (recs : List MatchRecord) (nU : List Key),
      (∀ p ∈ nms, targetQ p) →
      (∀ r0 ∈ recs, ∀ nd, r0.app_name = some nd →
        targetQ (detKey nd, rec_ikey r0) ∧ nd ∈ names) →
      ∀ r ∈ (phase2_attach nms names recs nU).1, ∀ nd, r.app_name = some nd →
        targetQ (detKey nd, rec_ikey r) ∧ nd ∈ names := by
  induction nms with
  | nil =>
    intro recs nU hQ hbase r hr nd hnd
    exact hbase r hr nd hnd
  | cons p rest ih =>
    intro recs nU hQ hbase r hr nd hnd
    unfold phase2_attach at hr
    rcases p with ⟨n, i⟩
    rcases hn : find_det names n with - | nd0
    · rw [hn] at hr
      exact ih recs nU (fun q hq => hQ q (List.mem_cons_of_mem _ hq)) hbase r hr nd hnd
    · rw [hn] at hr
      refine ih _ _ (fun q hq => hQ q (List.mem_cons_of_mem _ hq)) ?_ r hr nd hnd
      intro r1 hm1 nd1 hnd1
      rcases attach_name_mem recs nd0 i r1 hm1 with h | ⟨r2, hm2, hn2, hk2, he⟩
      · exact hbase r1 h nd1 hnd1
      · have hik : rec_ikey r1 = rec_ikey r2 := by
          rw [he]
          simp [rec_ikey]
        rw [he] at hnd1
        simp only at hnd1
        cases hnd1
        constructor
        · rw [hik, hk2, (findFirst_eq_some hn).2]
          exact hQ (n, i) (List.mem_cons_self _ _)
        · exact (findFirst_eq_some hn).1

/-! ### Claim C8: key disjointness machinery -/

theorem rec_ukey_eq {r : MatchRecord} {d : Det} (h : r.app_usage = some d) :
    rec_ukey r = detKey d := by
  simp [rec_ukey, okey, h]

theorem rec_ikey_eq {r : MatchRecord} {d : Det} (h : r.app_icon = some d) :
    rec_ikey r = detKey d := by
  simp [rec_ikey, okey, h]

theorem rec_nkey_eq {r : MatchRecord} {d : Det} (h : r.app_name = some d) :
    rec_nkey r = detKey d := by
  simp [rec_nkey, okey, h]

theorem mem_recordKeys {r : MatchRecord} {k : Key} :
    k ∈ recordKeys r ↔
      (∃ d, r.app_usage = some d ∧ detKey d = k) ∨
      (∃ d, r.app_icon = some d ∧ detKey d = k) ∨
      (∃ d, r.app_name = some d ∧ detKey d = k) := by
  rcases r with ⟨u, i, n⟩
  unfold recordKeys
  rcases u with - | ud <;> rcases i with - | idet <;> rcases n with - | nd <;>
    simp [eq_comm]

theorem entries_eq_of_fst_nodup {V : Type} (l : List (Key × V))
    (h : (l.map Prod.fst).Nodup) (p1 p2 : Key × V) (h1 : p1 ∈ l) (h2 : p2 ∈ l)
    (he : p1.1 = p2.1) : p1 = p2 :=
  List.inj_on_of_nodup_map h h1 h2 he

theorem label_key_disjoint (dets : List Det) (hkeys : (dets.map detKey).Nodup)
    (c1 c2 : String) (hc : c1 ≠ c2) :
    ∀ k, k ∈ (filterP (fun d => d.label = c1) dets).map detKey →
      k ∉ (filterP (fun d => d.label = c2) dets).map detKey := by
  intro k h1 h2
  rcases List.mem_map.mp h1 with ⟨d1, hd1, rfl⟩
  rcases List.mem_map.mp h2 with ⟨d2, hd2, hk2⟩
  have hm1 := mem_filterP.mp hd1
  have hm2 := mem_filterP.mp hd2
  have hd : d2 = d1 := List.inj_on_of_nodup_map hkeys hm2.1 hm1.1 hk2
  apply hc
  rw [← hm1.2, ← hm2.2, hd]

theorem records_disjoint_pointwise (app_names app_usages app_icons : List Det)
    (hdisj_un : ∀ k, k ∈ app_usages.map detKey → k ∉ app_names.map detKey)
    (hdisj_ui : ∀ k, k ∈ app_usages.map detKey → k ∉ app_icons.map detKey)
    (hdisj_in : ∀ k, k ∈ app_icons.map detKey → k ∉ app_names.map detKey)
    (r1 r2 : MatchRecord)
    (hu1 : ∀ d, r1.app_usage = some d → d ∈ app_usages)
    (hu2 : ∀ d, r2.app_usage = some d → d ∈ app_usages)
    (hi1 : ∀ d, r1.app_icon = some d → d ∈ app_icons)
    (hi2 : ∀ d, r2.app_icon = some d → d ∈ app_icons)
    (hn1 : ∀ d, r1.app_name = some d → d ∈ app_names)
    (hn2 : ∀ d, r2.app_name = some d → d ∈ app_names)
    (hune : ∀ d1 d2, r1.app_usage = some d1 → r2.app_usage = some d2 →
      detKey d1 ≠ detKey d2)
    (hine : ∀ d1 d2, r1.app_icon = some d1 → r2.app_icon = some d2 →
      detKey d1 ≠ detKey d2)
    (hnne : ∀ d1 d2, r1.app_name = some d1 → r2.app_name = some d2 →
      detKey d1 ≠ detKey d2) :
    ∀ k, k ∈ recordKeys r1 → k ∉ recordKeys r2 := by
  intro k hk1 hk2
  rcases mem_recordKeys.mp hk1 with ⟨d1, hf1, hd1⟩ | ⟨d1, hf1, hd1⟩ | ⟨d1, hf1, hd1⟩ <;>
    rcases mem_recordKeys.mp hk2 with ⟨d2, hf2, hd2⟩ | ⟨d2, hf2, hd2⟩ | ⟨d2, hf2, hd2⟩
  · exact hune d1 d2 hf1 hf2 (hd1.trans hd2.symm)
  · exact hdisj_ui k (List.mem_map.mpr ⟨d1, hu1 d1 hf1, hd1⟩)
      (List.mem_map.mpr ⟨d2, hi2 d2 hf2, hd2⟩)
  · exact hdisj_un k (List.mem_map.mpr ⟨d1, hu1 d1 hf1, hd1⟩)
      (List.mem_map.mpr ⟨d2, hn2 d2 hf2, hd2⟩)
  · exact hdisj_ui k (List.mem_map.mpr ⟨d2, hu2 d2 hf2, hd2⟩)
      (List.mem_map.mpr ⟨d1, hi1 d1 hf1, hd1⟩)
  · exact hine d1 d2 hf1 hf2 (hd1.trans hd2.symm)
  · exact hdisj_in k (List.mem_map.mpr ⟨d1, hi1 d1 hf1, hd1⟩)
      (List.mem_map.mpr ⟨d2, hn2 d2 hf2, hd2⟩)
  · exact hdisj_un k (List.mem_map.mpr ⟨d2, hu2 d2 hf2, hd2⟩)
      (List.mem_map.mpr ⟨d1, hn1 d1 hf1, hd1⟩)
  · exact hdisj_in k (List.mem_map.mpr ⟨d2, hi2 d2 hf2, hd2⟩)
      (List.mem_map.mpr ⟨d1, hn1 d1 hf1, hd1⟩)
  · exact hnne d1 d2 hf1 hf2 (hd1.trans hd2.symm)

theorem foldl_fixed_state {α β : Type} (f : α → β → α) (h : ∀ a b, f a b = a) :
    ∀ (l : List β) (a : α), l.foldl f a = a := by
  intro l
  induction l with
  | nil => exact fun a => rfl
  | cons b rest ih =>
    intro a
    rw [List.foldl_cons, h a b]
    exact ih a

theorem phase1_fold_nil_lines (initSq : ℚ) (us : List Det) :
    phase1_fold [] initSq us = ([], []) :=
  foldl_fixed_state _ (fun _ _ => rfl) us ([], [])

theorem phase2_fold_nil_lines (icons_matched : List Key) (initSq : ℚ)
    (ns : List Det) : phase2_fold [] icons_matched initSq ns = ([], []) :=
  foldl_fixed_state _ (fun _ _ => rfl) ns ([], [])

theorem ray_phase_nil_lines (cfg : Cfg) (app_names app_usages app_icons : List Det)
    (nU uU iU : List Key) :
    ray_phase [] cfg app_names app_usages app_icons nU uU iU = ([], nU, uU, iU) := by
  simp only [ray_phase, phase1_fold_nil_lines, phase2_fold_nil_lines]
  rfl

/-! ### Claim C8: pairwise disjointness of the produced records -/

theorem built_attach_pairwise (app_names app_usages app_icons : List Det)
    (hdisj_un : ∀ k, k ∈ app_usages.map detKey → k ∉ app_names.map detKey)
    (hdisj_ui : ∀ k, k ∈ app_usages.map detKey → k ∉ app_icons.map detKey)
    (hdisj_in : ∀ k, k ∈ app_icons.map detKey → k ∉ app_names.map detKey)
    (ums : List (Key × Key)) (hufst : (ums.map Prod.fst).Nodup)
    (husnd : (ums.map Prod.snd).Nodup)
    (nms : List (Key × Key)) (hnfst : (nms.map Prod.fst).Nodup)
    (uU iU nU : List Key) :
    ((phase2_attach nms app_names
        (phase1_build ums app_usages app_icons uU iU).1 nU).1).Pairwise
      (fun r1 r2 => ∀ k, k ∈ recordKeys r1 → k ∉ recordKeys r2) := by
  have hpairs := phase1_build_pairs ums app_usages app_icons uU iU
  have hfun_u : (Prod.fst ∘ fun r : MatchRecord => (rec_ukey r, rec_ikey r)) =
      rec_ukey := funext fun r => rfl
  have hfun_i : (Prod.snd ∘ fun r : MatchRecord => (rec_ukey r, rec_ikey r)) =
      rec_ikey := funext fun r => rfl
  have hu0 : (((phase1_build ums app_usages app_icons uU iU).1).map rec_ukey).Nodup := by
    have h := (hpairs.map Prod.fst).nodup hufst
    rw [List.map_map, hfun_u] at h
    exact h
  have hi0 : (((phase1_build ums app_usages app_icons uU iU).1).map rec_ikey).Nodup := by
    have h := (hpairs.map Prod.snd).nodup husnd
    rw [List.map_map, hfun_i] at h
    exact h
  have hmaps := phase2_attach_maps nms app_names
    (phase1_build ums app_usages app_icons uU iU).1 nU
  have hu : (((phase2_attach nms app_names
      (phase1_build ums app_usages app_icons uU iU).1 nU).1).map rec_ukey).Nodup := by
    rw [hmaps.1]
    exact hu0
  have hi : (((phase2_attach nms app_names
      (phase1_build ums app_usages app_icons uU iU).1 nU).1).map rec_ikey).Nodup := by
    rw [hmaps.2]
    exact hi0
  have pu := List.pairwise_map.mp hu
  have pi := List.pairwise_map.mp hi
  have pui := pu.and pi
  have hmem0 := phase1_build_mem ums app_usages app_icons uU iU
  have hmem := phase2_attach_mem nms app_names
    (phase1_build ums app_usages app_icons uU iU).1 nU
  have horigin := phase2_attach_name_origin (fun p => p ∈ nms) app_names nms
    (phase1_build ums app_usages app_icons uU iU).1 nU (fun p hp => hp)
    (by
      intro r0 h0 nd hnd
      have := (hmem0 r0 h0).2.2
      rw [this] at hnd
      cases hnd)
  refine List.Pairwise.imp_of_mem ?_ pui
  intro r1 r2 h1 h2 hR
  obtain ⟨r01, h01, hueq1, hieq1⟩ := hmem r1 h1
  obtain ⟨r02, h02, hueq2, hieq2⟩ := hmem r2 h2
  obtain ⟨⟨ud1, hud1, hudm1⟩, ⟨id1, hid1, hidm1⟩, -⟩ := hmem0 r01 h01
  obtain ⟨⟨ud2, hud2, hudm2⟩, ⟨id2, hid2, hidm2⟩, -⟩ := hmem0 r02 h02
  have hru1 : r1.app_usage = some ud1 := by rw [hueq1, hud1]
  have hru2 : r2.app_usage = some ud2 := by rw [hueq2, hud2]
  have hri1 : r1.app_icon = some id1 := by rw [hieq1, hid1]
  have hri2 : r2.app_icon = some id2 := by rw [hieq2, hid2]
  refine records_disjoint_pointwise app_names app_usages app_icons
    hdisj_un hdisj_ui hdisj_in r1 r2 ?_ ?_ ?_ ?_ ?_ ?_ ?_ ?_ ?_
  · intro d hd
    rw [hru1] at hd
    cases hd
    exact hudm1
  · intro d hd
    rw [hru2] at hd
    cases hd
    exact hudm2
  · intro d hd
    rw [hri1] at hd
    cases hd
    exact hidm1
  · intro d hd
    rw [hri2] at hd
    cases hd
    exact hidm2
  · intro d hd
    exact (horigin r1 h1 d hd).2
  · intro d hd
    exact (horigin r2 h2 d hd).2
  · intro d1 d2 hd1 hd2 he
    apply hR.1
    rw [rec_ukey_eq hd1, rec_ukey_eq hd2, he]
  · intro d1 d2 hd1 hd2 he
    apply hR.2
    rw [rec_ikey_eq hd1, rec_ikey_eq hd2, he]
  · intro d1 d2 hd1 hd2 he
    have o1 := (horigin r1 h1 d1 hd1).1
    have o2 := (horigin r2 h2 d2 hd2).1
    have hpq := entries_eq_of_fst_nodup nms hnfst _ _ o1 o2 (by simpa using he)
    apply hR.2
    rw [rec_ikey_eq hri1, rec_ikey_eq hri2]
    have hsnd : rec_ikey r1 = rec_ikey r2 := congrArg Prod.snd hpq
    rw [rec_ikey_eq hri1, rec_ikey_eq hri2] at hsnd
    exact hsnd

theorem fallback_build_pairwise (app_names app_usages : List Det)
    (hdisj_un : ∀ k, k ∈ app_usages.map detKey → k ∉ app_names.map detKey)
    (map : List (Key × Key)) (hfst : (map.map Prod.fst).Nodup)
    (hsnd : (map.map Prod.snd).Nodup) (uU nU : List Key) :
    ((fallback_build map app_usages app_names uU nU).1).Pairwise
      (fun r1 r2 => ∀ k, k ∈ recordKeys r1 → k ∉ recordKeys r2) := by
  have hpairs := fallback_build_pairs map app_usages app_names uU nU
  have hfun_u : (Prod.fst ∘ fun r : MatchRecord => (rec_ukey r, rec_nkey r)) =
      rec_ukey := funext fun r => rfl
  have hfun_n : (Prod.snd ∘ fun r : MatchRecord => (rec_ukey r, rec_nkey r)) =
      rec_nkey := funext fun r => rfl
  have hu : (((fallback_build map app_usages app_names uU nU).1).map rec_ukey).Nodup := by
    have h := (hpairs.map Prod.fst).nodup hfst
    rw [List.map_map, hfun_u] at h
    exact h
  have hn : (((fallback_build map app_usages app_names uU nU).1).map rec_nkey).Nodup := by
    have h := (hpairs.map Prod.snd).nodup hsnd
    rw [List.map_map, hfun_n] at h
    exact h
  have pu := List.pairwise_map.mp hu
  have pn := List.pairwise_map.mp hn
  have pun := pu.and pn
  have hmem := fallback_build_mem map app_usages app_names uU nU
  refine List.Pairwise.imp_of_mem ?_ pun
  intro r1 r2 h1 h2 hR
  obtain ⟨⟨ud1, hud1, hudm1⟩, hic1, ⟨nd1, hnd1, hndm1⟩⟩ := hmem r1 h1
  obtain ⟨⟨ud2, hud2, hudm2⟩, hic2, ⟨nd2, hnd2, hndm2⟩⟩ := hmem r2 h2
  refine records_disjoint_pointwise app_names app_usages ([] : List Det)
    hdisj_un (fun k hk hc => by simp at hc) (fun k hk hc => by simp at hk)
    r1 r2 ?_ ?_ ?_ ?_ ?_ ?_ ?_ ?_ ?_
  · intro d hd
    rw [hud1] at hd
    cases hd
    exact hudm1
  · intro d hd
    rw [hud2] at hd
    cases hd
    exact hudm2
  · intro d hd
    rw [hic1] at hd
    cases hd
  · intro d hd
    rw [hic2] at hd
    cases hd
  · intro d hd
    rw [hnd1] at hd
    cases hd
    exact hndm1
  · intro d hd
    rw [hnd2] at hd
    cases hd
    exact hndm2
  · intro d1 d2 hd1 hd2 he
    apply hR.1
    rw [rec_ukey_eq hd1, rec_ukey_eq hd2, he]
  · intro d1 d2 hd1 hd2 he
    rw [hic1] at hd1
    cases hd1
  · intro d1 d2 hd1 hd2 he
    apply hR.2
    rw [rec_nkey_eq hd1, rec_nkey_eq hd2, he]

/-- C8: in the output of `match_app_name_and_usage`, provided the three class
labels are distinct and the detections' `(x, y, w, h)` keys identify them
uniquely (the claim's premise that a key identifies a box), each box key is
referenced by at most one match record — the records' key sets are pairwise
disjoint — and no record has all three of its icon, name and usage fields
equal to `None`. -/
theorem C8_record_key_uniqueness (core : List (ℤ × ℤ) → Option RefLine)
    (dets : List Det) (hgt wid : ℚ) (cfg : Cfg)
    (hname_usage : cfg.app_name_class ≠ cfg.app_usage_class)
    (hname_icon : cfg.app_name_class ≠ cfg.app_icon_class)
    (husage_icon : cfg.app_usage_class ≠ cfg.app_icon_class)
    (hkeys : (dets.map detKey).Nodup) :
    ((match_app_name_and_usage core dets hgt wid cfg).matched_data).Pairwise
      (fun r1 r2 => ∀ k, k ∈ recordKeys r1 → k ∉ recordKeys r2) ∧
    ∀ r ∈ (match_app_name_and_usage core dets hgt wid cfg).matched_data,
      ¬ (r.app_usage = none ∧ r.app_icon = none ∧ r.app_name = none) := by
  have hdisj_un : ∀ k,
      k ∈ (filterP (fun d => d.label = cfg.app_usage_class) dets).map detKey →
      k ∉ (filterP (fun d => d.label = cfg.app_name_class) dets).map detKey :=
    label_key_disjoint dets hkeys _ _ (fun h => hname_usage h.symm)
  have hdisj_ui : ∀ k,
      k ∈ (filterP (fun d => d.label = cfg.app_usage_class) dets).map detKey →
      k ∉ (filterP (fun d => d.label = cfg.app_icon_class) dets).map detKey :=
    label_key_disjoint dets hkeys _ _ husage_icon
  have hdisj_in : ∀ k,
      k ∈ (filterP (fun d => d.label = cfg.app_icon_class) dets).map detKey →
      k ∉ (filterP (fun d => d.label = cfg.app_name_class) dets).map detKey :=
    label_key_disjoint dets hkeys _ _ (fun h => hname_icon h.symm)
  constructor
  · simp only [match_app_name_and_usage]
    rcases hrl : reference_line_of core dets cfg with - | rl
    · simp only [hrl]
      by_cases hc : True ∧
          filterP (fun d => d.label = cfg.app_name_class) dets ≠ [] ∧
          filterP (fun d => d.label = cfg.app_usage_class) dets ≠ []
      · rw [if_pos hc]
        simp only [List.nil_append]
        exact fallback_build_pairwise _ _ hdisj_un _
          (fallback_fold_nodup _ _).1 (fallback_fold_nodup _ _).2 _ _
      · rw [if_neg hc]
        exact List.Pairwise.nil
    · simp only [hrl]
      by_cases hc : build_search_lines rl
            (filterP (fun d => d.label = cfg.app_icon_class) dets) wid hgt
            cfg.search_line_tolerance = [] ∧
          filterP (fun d => d.label = cfg.app_name_class) dets ≠ [] ∧
          filterP (fun d => d.label = cfg.app_usage_class) dets ≠ []
      · rw [if_pos hc]
        simp only [hc.1, ray_phase_nil_lines, List.nil_append]
        exact fallback_build_pairwise _ _ hdisj_un _
          (fallback_fold_nodup _ _).1 (fallback_fold_nodup _ _).2 _ _
      · rw [if_neg hc]
        simp only [ray_phase]
        exact built_attach_pairwise _ _ _ hdisj_un hdisj_ui hdisj_in _
          (phase1_fold_nodup _ _ _).1 (phase1_fold_nodup _ _ _).2 _
          (phase2_fold_nodup _ _ _ _).1 _ _ _
  · intro r hr hall
    simp only [match_app_name_and_usage] at hr
    rcases hrl : reference_line_of core dets cfg with - | rl
    · simp only [hrl] at hr
      by_cases hc : True ∧
          filterP (fun d => d.label = cfg.app_name_class) dets ≠ [] ∧
          filterP (fun d => d.label = cfg.app_usage_class) dets ≠ []
      · rw [if_pos hc] at hr
        simp only [List.nil_append] at hr
        exact fallback_build_usage_some _ _ _ _ _ r hr hall.1
      · rw [if_neg hc] at hr
        simp at hr
    · simp only [hrl] at hr
      by_cases hc : build_search_lines rl
            (filterP (fun d => d.label = cfg.app_icon_class) dets) wid hgt
            cfg.search_line_tolerance = [] ∧
          filterP (fun d => d.label = cfg.app_name_class) dets ≠ [] ∧
          filterP (fun d => d.label = cfg.app_usage_class) dets ≠ []
      · rw [if_pos hc] at hr
        simp only [List.mem_append] at hr
        rcases hr with hr | hr
        · exact ray_phase_usage_some _ _ _ _ _ _ _ _ r hr hall.1
        · exact fallback_build_usage_some _ _ _ _ _ r hr hall.1
      · rw [if_neg hc] at hr
        exact ray_phase_usage_some _ _ _ _ _ _ _ _ r hr hall.1

set_option maxHeartbeats 1000000 in
theorem C8_record_key_uniqueness_witness :
    (default_cfg.app_name_class ≠ default_cfg.app_usage_class) ∧
    (default_cfg.app_name_class ≠ default_cfg.app_icon_class) ∧
    (default_cfg.app_usage_class ≠ default_cfg.app_icon_class) ∧
    ((dets_one_each.map detKey).Nodup) ∧
    ((match_app_name_and_usage (fun _ => none) dets_one_each 480 640
        default_cfg).matched_data).Pairwise
      (fun r1 r2 => ∀ k, k ∈ recordKeys r1 → k ∉ recordKeys r2) := by
  have h1 : default_cfg.app_name_class ≠ default_cfg.app_usage_class := by
    simp [default_cfg]
  have h2 : default_cfg.app_name_class ≠ default_cfg.app_icon_class := by
    simp [default_cfg]
  have h3 : default_cfg.app_usage_class ≠ default_cfg.app_icon_class := by
    simp [default_cfg]
  have h4 : (dets_one_each.map detKey).Nodup := by
    simp [dets_one_each, detKey]
  exact ⟨h1, h2, h3, h4,
    (C8_record_key_uniqueness (fun _ => none) dets_one_each 480 640 default_cfg
      h1 h2 h3 h4).1⟩

end AppUsage
